import Mathlib

/-!
# Verification of the native-messaging bridge (`chrome_tab_native_host.py`)

This file shallowly embeds the core of the bridge process:

* the JSON layer used by the bridge (`json.dumps` with its default
  separators `", "` / `": "` and `ensure_ascii=True`, and `json.loads`),
  modelled over a deep `Json` type whose numbers are integers
  (floating-point payloads are outside the model);
* the Chrome native-messaging frame codec (`send_message`, `read_message`),
  including the `struct.pack('=I', ...)` length prefix whose byte order is
  the *native* byte order of the platform, modelled by a `Byteorder`
  parameter;
* UTF-8 decoding (`bytes.decode('utf-8')`);
* the pending-request table (`pending_requests`, a dict from int request id
  to a mutable response list), its delivery path in
  `extension_message_loop`, and the polling wait in `handle_mcp_client`;
* the TCP client handler: authentication (`authenticate_tcp_client`),
  newline-delimited request reading over `recv` chunks, request-id
  allocation, forwarding, timeout, and response writing.

Bytes and Unicode code points are modelled as `Nat`.
-/

/-! ## JSON values

Mutual inductives (instead of a nested `List Json`) so that all functions
over them are compiled by structural recursion and reduce definitionally. -/

mutual
inductive Json where
  | null : Json
  | bool (b : Bool) : Json
  | num (n : Int) : Json
  | str (s : List Nat) : Json
  | arr (elems : JsonList) : Json
  | obj (fields : JsonFields) : Json

inductive JsonList where
  | nil : JsonList
  | cons (hd : Json) (tl : JsonList) : JsonList

inductive JsonFields where
  | nil : JsonFields
  | cons (key : List Nat) (val : Json) (tl : JsonFields) : JsonFields
end

/-- ASCII code points of a Lean string literal (used to transcribe the
message texts appearing in the Python source). -/
def asciiStr (s : String) : List Nat := s.toList.map Char.toNat

/-! ## Encoder: `json.dumps(message)` with default arguments

Default separators are `', '` and `': '`; `ensure_ascii=True` escapes every
character outside `0x20..0x7e` as `\uXXXX` (lowercase hex), using a
surrogate pair for code points above `0xFFFF`.  The result is pure ASCII,
so its UTF-8 encoding is the character sequence itself. -/

def hexDigitChar (d : Nat) : Nat := if d < 10 then 48 + d else 87 + d

def hex4 (n : Nat) : List Nat :=
  [hexDigitChar (n / 4096 % 16), hexDigitChar (n / 256 % 16),
   hexDigitChar (n / 16 % 16), hexDigitChar (n % 16)]

/-- Escape of one character, after `json.encoder`'s `ESCAPE_ASCII` rule
`([\\"]|[^\ -~])` and `ESCAPE_DCT`. -/
def escapeChar (c : Nat) : List Nat :=
  if c = 34 then [92, 34]
  else if c = 92 then [92, 92]
  else if c = 8 then [92, 98]
  else if c = 9 then [92, 116]
  else if c = 10 then [92, 110]
  else if c = 12 then [92, 102]
  else if c = 13 then [92, 114]
  else if c < 32 then 92 :: 117 :: hex4 c
  else if c ≤ 126 then [c]
  else if c ≤ 65535 then 92 :: 117 :: hex4 c
  else
    92 :: 117 :: hex4 (55296 + (c - 65536) / 1024) ++
      92 :: 117 :: hex4 (56320 + (c - 65536) % 1024)

def encodeString (s : List Nat) : List Nat :=
  34 :: s.flatMap escapeChar ++ [34]

/-- Base-10 digits, least significant first, by fuel so that it reduces
definitionally (`Nat.digits` itself is well-founded and does not).  Fuel
`n` is always enough since the argument is divided by 10 each step. -/
def natDigitsAux : Nat → Nat → List Nat
  | 0, _ => []
  | fuel + 1, n => if n = 0 then [] else n % 10 :: natDigitsAux fuel (n / 10)

def natDigits (n : Nat) : List Nat := natDigitsAux n n

/-- Decimal digits of a natural number, most significant first. -/
def encodeNat (n : Nat) : List Nat :=
  if n = 0 then [48] else (natDigits n).reverse.map (· + 48)

def encodeInt (n : Int) : List Nat :=
  if n < 0 then 45 :: encodeNat n.natAbs else encodeNat n.natAbs

mutual
def jsonEncode : Json → List Nat
  | .null => [110, 117, 108, 108]
  | .bool true => [116, 114, 117, 101]
  | .bool false => [102, 97, 108, 115, 101]
  | .num n => encodeInt n
  | .str s => encodeString s
  | .arr xs => 91 :: (encElems xs ++ [93])
  | .obj fs => 123 :: (encFields fs ++ [125])

def encElems : JsonList → List Nat
  | .nil => []
  | .cons x .nil => jsonEncode x
  | .cons x (.cons y ys) => jsonEncode x ++ 44 :: 32 :: encElems (.cons y ys)

def encFields : JsonFields → List Nat
  | .nil => []
  | .cons k v .nil => encodeString k ++ 58 :: 32 :: jsonEncode v
  | .cons k v (.cons k2 v2 fs) =>
      encodeString k ++ 58 :: 32 :: jsonEncode v ++ 44 :: 32 :: encFields (.cons k2 v2 fs)
end

/-! ## Well-formedness of a message

A Python message is a tree of dicts/lists/strs/ints: dict keys are unique
and strings contain Unicode scalar values (no lone surrogates — a Python
`str` can technically carry them, but then `json.dumps`/`json.loads` is not
injective, and no real message does). -/

def validString (s : List Nat) : Bool :=
  s.all (fun c => c < 1114112 && (decide (c < 55296) || decide (57343 < c)))

def containsKey : JsonFields → List Nat → Bool
  | .nil, _ => false
  | .cons k _ tl, key => k = key || containsKey tl key

mutual
def wfb : Json → Bool
  | .null => true
  | .bool _ => true
  | .num _ => true
  | .str s => validString s
  | .arr xs => wfbL xs
  | .obj fs => wfbF fs

def wfbL : JsonList → Bool
  | .nil => true
  | .cons x xs => wfb x && wfbL xs

def wfbF : JsonFields → Bool
  | .nil => true
  | .cons k v tl => validString k && !containsKey tl k && wfb v && wfbF tl
end

/-! ## Parser: `json.loads(s)`

A model of CPython's `json.decoder` on the fragment the bridge exchanges:
whitespace per `json.decoder.WHITESPACE` (space, tab, newline, carriage
return), strings with the full escape grammar of `py_scanstring`
(including surrogate-pair recombination and lone surrogates), and integer
numbers.  A numeric token continued by `.`/`e`/`E` (a float) is rejected
by the model — floating point is outside it — and the literals
`NaN`/`Infinity` are likewise not modelled; no theorem below evaluates the
parser on such input.  Structured recursion is by fuel (first argument) so
everything reduces definitionally; any fuel at least `fuelV` of the value
(below) is enough. -/

def isWsChar (c : Nat) : Bool := c = 32 || c = 9 || c = 10 || c = 13

def skipWs (s : List Nat) : List Nat := s.dropWhile isWsChar

def hexVal (c : Nat) : Option Nat :=
  if 48 ≤ c ∧ c ≤ 57 then some (c - 48)
  else if 97 ≤ c ∧ c ≤ 102 then some (c - 87)
  else if 65 ≤ c ∧ c ≤ 70 then some (c - 55)
  else none

def hex4Val (a b c d : Nat) : Option Nat :=
  match hexVal a, hexVal b, hexVal c, hexVal d with
  | some x, some y, some z, some w => some (x * 4096 + y * 256 + z * 16 + w)
  | _, _, _, _ => none

/-- `hex4Val` of the first four characters of a list, when present. -/
def hex4ValL : List Nat → Option Nat
  | a :: b :: c :: d :: _ => hex4Val a b c d
  | _ => none

/-- The recombination attempt after a high surrogate `u`: if `\\u` follows,
the next four characters must be hex (else error), and a low surrogate
combines; otherwise the lone high surrogate stands. -/
def uniPair (u : Nat) (r : List Nat) : Option (Option Nat × List Nat) :=
  if r.head? = some 92 ∧ r.tail.head? = some 117 then
    match hex4ValL r.tail.tail with
    | none => none
    | some u2 =>
      if 56320 ≤ u2 ∧ u2 ≤ 57343 then
        some (some (65536 + (u - 55296) * 1024 + (u2 - 56320)), r.tail.tail.drop 4)
      else some (some u, r)
  else some (some u, r)

/-- The `\\uXXXX` escape of `py_scanstring`, entered after `\\u`: four hex
characters (else error); a high surrogate attempts recombination. -/
def uniEsc (t : List Nat) : Option (Option Nat × List Nat) :=
  match hex4ValL t with
  | none => none
  | some u =>
    if 55296 ≤ u ∧ u ≤ 56319 then uniPair u (t.drop 4)
    else some (some u, t.drop 4)

/-- One escape sequence, entered after the backslash. -/
def escStep (r : List Nat) : Option (Option Nat × List Nat) :=
  match r.head? with
  | none => none
  | some e =>
    if e = 34 then some (some 34, r.tail)
    else if e = 92 then some (some 92, r.tail)
    else if e = 47 then some (some 47, r.tail)
    else if e = 98 then some (some 8, r.tail)
    else if e = 116 then some (some 9, r.tail)
    else if e = 110 then some (some 10, r.tail)
    else if e = 102 then some (some 12, r.tail)
    else if e = 114 then some (some 13, r.tail)
    else if e = 117 then uniEsc r.tail
    else none

/-- One character of `py_scanstring`: `some (none, rest)` is the closing
quote, `some (some c, rest)` one decoded character; raw control characters
are rejected (strict mode). -/
def strStep (s : List Nat) : Option (Option Nat × List Nat) :=
  match s.head? with
  | none => none
  | some c =>
    if c = 34 then some (none, s.tail)
    else if c = 92 then escStep s.tail
    else if c < 32 then none
    else some (some c, s.tail)

/-- `py_scanstring` after the opening quote, by fuel (each step consumes at
least one character, so the input length is always sufficient fuel). -/
def parseStringFuel : Nat → List Nat → Option (List Nat × List Nat)
  | 0, _ => none
  | fuel + 1, s =>
    match strStep s with
    | none => none
    | some (none, rest) => some ([], rest)
    | some (some c, rest) => (parseStringFuel fuel rest).map (fun p => (c :: p.1, p.2))

/-- `py_scanstring` after the opening quote: returns the decoded character
list and the input following the closing quote. -/
def parseStringAux (s : List Nat) : Option (List Nat × List Nat) :=
  parseStringFuel s.length s

def isDigit (c : Nat) : Bool := 48 ≤ c && c ≤ 57

def takeDigits : List Nat → List Nat × List Nat
  | [] => ([], [])
  | c :: rest =>
    if isDigit c then
      let p := takeDigits rest
      (c :: p.1, p.2)
    else ([], c :: rest)

def digitsVal (ds : List Nat) : Nat := Nat.ofDigits 10 ((ds.map (· - 48)).reverse)

/-- True when the scanner would continue the numeric token as a float. -/
def floatFollow : List Nat → Bool
  | c :: _ => c = 46 || c = 101 || c = 69
  | [] => false

/-- An unsigned JSON integer token: `0` or a nonzero leading digit
followed by a maximal digit run (the grammar `0|[1-9][0-9]*`). -/
def parseNumTail (s : List Nat) : Option (Nat × List Nat) :=
  match s with
  | [] => none
  | c :: rest =>
    if c = 48 then
      if floatFollow rest then none else some (0, rest)
    else if 49 ≤ c ∧ c ≤ 57 then
      let p := takeDigits (c :: rest)
      if floatFollow p.2 then none else some (digitsVal p.1, p.2)
    else none

/-- Python dict assignment `d[k] = v`: replaces in place, else appends. -/
def dictSetF : JsonFields → List Nat → Json → JsonFields
  | .nil, k, v => .cons k v .nil
  | .cons k' v' tl, k, v =>
    if k' = k then .cons k' v tl else .cons k' v' (dictSetF tl k v)

/-- `dict(pairs)` built by repeated assignment: a duplicated key keeps the
first position and the last value, as in `json.loads`. -/
def dictFold : JsonFields → JsonFields → JsonFields
  | acc, .nil => acc
  | acc, .cons k v tl => dictFold (dictSetF acc k v) tl

def dictify (fs : JsonFields) : JsonFields := dictFold .nil fs

/-- Literal keyword tail (`ull`, `rue`, `alse`) after its first char. -/
def expectLit (lit : List Nat) (s : List Nat) : Option (List Nat) :=
  if lit.isPrefixOf s then some (s.drop lit.length) else none

mutual
def parseValue : Nat → List Nat → Option (Json × List Nat)
  | 0, _ => none
  | _ + 1, [] => none
  | f + 1, c :: rest =>
    if c = 110 then (expectLit [117, 108, 108] rest).map (fun r => (.null, r))
    else if c = 116 then (expectLit [114, 117, 101] rest).map (fun r => (.bool true, r))
    else if c = 102 then (expectLit [97, 108, 115, 101] rest).map (fun r => (.bool false, r))
    else if c = 34 then (parseStringAux rest).map (fun p => (.str p.1, p.2))
    else if c = 91 then
      let s1 := skipWs rest
      if s1.head? = some 93 then some (.arr .nil, s1.tail)
      else (parseElems f s1).map (fun p => (.arr p.1, p.2))
    else if c = 123 then
      let s1 := skipWs rest
      if s1.head? = some 125 then some (.obj .nil, s1.tail)
      else (parseFields f s1).map (fun p => (.obj (dictify p.1), p.2))
    else if c = 45 then
      (parseNumTail rest).map (fun p => (.num (-(p.1 : Int)), p.2))
    else if isDigit c then
      (parseNumTail (c :: rest)).map (fun p => (.num (p.1 : Int), p.2))
    else none

/-- One or more array elements followed by the closing `]`. -/
def parseElems : Nat → List Nat → Option (JsonList × List Nat)
  | 0, _ => none
  | f + 1, s =>
    match parseValue f s with
    | none => none
    | some (v, s1) =>
      let t := skipWs s1
      if t.head? = some 44 then
        (parseElems f (skipWs t.tail)).map (fun p => (.cons v p.1, p.2))
      else if t.head? = some 93 then some (.cons v .nil, t.tail)
      else none

/-- One or more `"key": value` members followed by the closing `}`. -/
def parseFields : Nat → List Nat → Option (JsonFields × List Nat)
  | 0, _ => none
  | f + 1, s =>
    if s.head? = some 34 then
      match parseStringAux s.tail with
      | none => none
      | some (k, s1) =>
        let t1 := skipWs s1
        if t1.head? = some 58 then
          match parseValue f (skipWs t1.tail) with
          | none => none
          | some (v, s3) =>
            let t3 := skipWs s3
            if t3.head? = some 44 then
              if (skipWs t3.tail).head? = some 34 then
                (parseFields f (skipWs t3.tail)).map (fun p => (.cons k v p.1, p.2))
              else none
            else if t3.head? = some 125 then some (.cons k v .nil, t3.tail)
            else none
        else none
    else none
end

/-- `json.loads`: parse one value, allowing surrounding whitespace,
requiring the whole input to be consumed ("Extra data" otherwise). -/
def jsonParse (s : List Nat) : Option Json :=
  match parseValue (2 * s.length + 2) (skipWs s) with
  | some (v, rest) => if skipWs rest = [] then some v else none
  | none => none

/-! ## UTF-8: `bytes.decode('utf-8')`

Strict decoding: rejects continuation errors, overlong forms, surrogates
and out-of-range code points; returns the code-point list. -/

/-- One code point of strict UTF-8: rejects bad continuation bytes,
overlong forms, surrogates, and out-of-range values. -/
def utf8Step (s : List Nat) : Option (Nat × List Nat) :=
  match s.head? with
  | none => none
  | some b =>
    let rest := s.tail
    if b < 128 then some (b, rest)
    else if 194 ≤ b ∧ b ≤ 223 then
      match rest.head? with
      | some b2 =>
        if 128 ≤ b2 ∧ b2 ≤ 191 then some ((b - 192) * 64 + (b2 - 128), rest.tail)
        else none
      | none => none
    else if 224 ≤ b ∧ b ≤ 239 then
      match rest.head?, rest.tail.head? with
      | some b2, some b3 =>
        let cp := (b - 224) * 4096 + (b2 - 128) * 64 + (b3 - 128)
        if 128 ≤ b2 ∧ b2 ≤ 191 ∧ 128 ≤ b3 ∧ b3 ≤ 191 ∧ 2048 ≤ cp ∧
            ¬(55296 ≤ cp ∧ cp ≤ 57343) then
          some (cp, rest.tail.tail)
        else none
      | _, _ => none
    else if 240 ≤ b ∧ b ≤ 244 then
      match rest.head?, rest.tail.head?, rest.tail.tail.head? with
      | some b2, some b3, some b4 =>
        let cp := (b - 240) * 262144 + (b2 - 128) * 4096 + (b3 - 128) * 64 + (b4 - 128)
        if 128 ≤ b2 ∧ b2 ≤ 191 ∧ 128 ≤ b3 ∧ b3 ≤ 191 ∧ 128 ≤ b4 ∧ b4 ≤ 191 ∧
            65536 ≤ cp ∧ cp ≤ 1114111 then
          some (cp, rest.tail.tail.tail)
        else none
      | _, _, _ => none
    else none

/-- Strict UTF-8 decoding by fuel (each step consumes at least one byte,
so the input length is always sufficient fuel). -/
def utf8DecodeAux : Nat → List Nat → Option (List Nat)
  | _, [] => some []
  | 0, _ :: _ => none
  | fuel + 1, s =>
    match utf8Step s with
    | none => none
    | some (cp, rest) => (utf8DecodeAux fuel rest).map (cp :: ·)

/-- `bytes.decode('utf-8')` (strict): the code-point list, or `none` for a
`UnicodeDecodeError`. -/
def utf8Decode (s : List Nat) : Option (List Nat) := utf8DecodeAux s.length s

/-! ## Native-messaging frame codec

`send_message` (`chrome_tab_native_host.py:197-222`) and `read_message`
(`:127-194`).  The length prefix is `struct.pack('=I', n)` /
`struct.unpack('=I', raw)`: standard size (4 bytes, unsigned) but *native*
byte order, modelled by the `Byteorder` parameter (`sys.byteorder`). -/

inductive Byteorder where
  | little : Byteorder
  | big : Byteorder
deriving DecidableEq

/-- `struct.pack('=I', n)`: `none` models the `struct.error` raised when
`n` does not fit an unsigned 32-bit int. -/
def structPackI (bo : Byteorder) (n : Nat) : Option (List Nat) :=
  if n < 4294967296 then
    some (match bo with
      | .little => [n % 256, n / 256 % 256, n / 65536 % 256, n / 16777216 % 256]
      | .big => [n / 16777216 % 256, n / 65536 % 256, n / 256 % 256, n % 256])
  else none

/-- `struct.unpack('=I', raw)[0]` on a 4-byte input. -/
def structUnpackI (bo : Byteorder) : List Nat → Nat
  | [a, b, c, d] =>
    match bo with
    | .little => a + 256 * b + 65536 * c + 16777216 * d
    | .big => 16777216 * a + 65536 * b + 256 * c + d
  | _ => 0

/-- Python exceptions relevant to the modelled paths. -/
inductive PyExn where
  | structError : PyExn   -- struct.pack argument out of range
  | osError : PyExn       -- write to a closed/broken stdout pipe
  | attributeError : PyExn  -- request.get on a non-dict request (line 370)
deriving DecidableEq

/-- The body of `send_message`'s `try:` block: JSON-encode, pack the
length, write prefix and payload.  `writeOk` is whether the OS accepts the
write (stdout may be a broken pipe); on success the value is the byte
sequence that reaches stdout. -/
def send_message_attempt (bo : Byteorder) (writeOk : Bool) (m : Json) :
    Except PyExn (List Nat) :=
  let payload := jsonEncode m
  match structPackI bo payload.length with
  | none => .error .structError
  | some prefixBytes =>
    if writeOk then .ok (prefixBytes ++ payload) else .error .osError

/-- `send_message` itself: the `except Exception` handler (line 221) logs
and falls through, so the caller always gets a normal return. -/
def send_message_outcome (bo : Byteorder) (writeOk : Bool) (m : Json) :
    Except PyExn (List Nat) :=
  match send_message_attempt bo writeOk m with
  | .ok written => .ok written
  | .error _ => .ok []   -- exception caught and logged; nothing delivered

/-- The bytes `send_message` places on stdout. -/
def send_message (bo : Byteorder) (writeOk : Bool) (m : Json) : List Nat :=
  match send_message_outcome bo writeOk m with
  | .ok written => written
  | .error _ => []

/-- The chunked body read of `read_message` (lines 151-178): read up to
1 MiB at a time until `remaining` bytes are collected; a zero-byte read
(closed stream) yields `none`.  Returns the collected bytes and the rest
of the stream.  Fuel is decremented once per loop iteration; `remaining`
is always sufficient fuel because every iteration reads at least one
byte. -/
def readChunksAux : Nat → Nat → List Nat → Option (List Nat × List Nat)
  | _, 0, s => some ([], s)
  | 0, _ + 1, _ => none
  | fuel + 1, remaining + 1, s =>
    let toRead := min 1048576 (remaining + 1)
    let chunk := s.take toRead
    match chunk with
    | [] => none
    | _ :: _ =>
      (readChunksAux fuel (remaining + 1 - chunk.length) (s.drop toRead)).map
        (fun p => (chunk ++ p.1, p.2))

/-- `read_message`, returning the parsed message (or `None`) together with
the not-yet-consumed part of the stdin stream.  Every failure — short
length prefix, truncated body, invalid UTF-8, invalid JSON — returns
`none`, exactly as the Python function returns `None` from its
`except ValueError` / generic handlers. -/
def read_message_rem (bo : Byteorder) (input : List Nat) : Option Json × List Nat :=
  let rawLength := input.take 4
  if rawLength.length ≠ 4 then (none, input.drop 4)
  else
    let messageLength := structUnpackI bo rawLength
    match readChunksAux messageLength messageLength (input.drop 4) with
    | none => (none, [])
    | some (messageBytes, rest) =>
      if messageBytes.length ≠ messageLength then (none, rest)
      else
        match utf8Decode messageBytes with
        | none => (none, rest)        -- UnicodeDecodeError is a ValueError
        | some chars =>
          match jsonParse chars with
          | none => (none, rest)      -- JSONDecodeError is a ValueError
          | some message => (some message, rest)

def read_message (bo : Byteorder) (input : List Nat) : Option Json :=
  (read_message_rem bo input).1

/-! ## Pending-request table

`pending_requests` is a Python dict from the integer request id to a
mutable list used as a single-slot response queue.  A dict holds at most
one entry per key; the association list below is kept that way by
construction (`tableSet` replaces in place, `tableRemove` filters the
key). -/

abbrev PendingTable := List (Int × List Json)

def tableLookup : PendingTable → Int → Option (List Json)
  | [], _ => none
  | (k, q) :: t, i => if k = i then some q else tableLookup t i

/-- `pending_requests[i] = q` (dict assignment). -/
def tableSet : PendingTable → Int → List Json → PendingTable
  | [], i, q => [(i, q)]
  | (k, q') :: t, i, q => if k = i then (k, q) :: t else (k, q') :: tableSet t i q

/-- `del pending_requests[i]` (guarded by `if i in pending_requests`). -/
def tableRemove (t : PendingTable) (i : Int) : PendingTable :=
  t.filter (fun kv => kv.1 ≠ i)

/-- `pending_requests[i].append(m)`. -/
def tableAppendAt : PendingTable → Int → Json → PendingTable
  | [], _, _ => []
  | (k, q) :: t, i, m => if k = i then (k, q ++ [m]) :: t else (k, q) :: tableAppendAt t i m

/-! ## Extension-side delivery (`extension_message_loop`, lines 517-524)

`request_id = message.get('request_id')` followed by
`if request_id and request_id in pending_requests`.  The `get` exists only
on dicts (a non-dict message raises `AttributeError`, caught by the loop's
outer handler); the truthiness test drops `None`/`0`/`False`/empty values;
dict key containment compares by Python `==`, under which `True == 1`,
`False == 0`, and non-numeric values never equal an int key. -/

def jsonGetField : JsonFields → List Nat → Option Json
  | .nil, _ => none
  | .cons k v tl, key => if k = key then some v else jsonGetField tl key

def jsonTruthy : Json → Bool
  | .null => false
  | .bool b => b
  | .num n => n ≠ 0
  | .str s => !s.isEmpty
  | .arr xs => match xs with | .nil => false | _ => true
  | .obj fs => match fs with | .nil => false | _ => true

/-- The value of `request_id` seen as an int dict key, when it can equal
one (`bool` coerces, any other non-int value hashes unequal to every int
key in the table). -/
def pyIntKey : Json → Option Int
  | .bool b => some (if b then 1 else 0)
  | .num n => some n
  | _ => none

/-- The int key a message would be delivered to, after the truthiness
filter; `none` when line 520's condition can never hold for an int-keyed
table. -/
def deliveryKey (fs : JsonFields) : Option Int :=
  match jsonGetField fs (asciiStr "request_id") with
  | some v => if jsonTruthy v then pyIntKey v else none
  | none => none

/-- One iteration of the routing in `extension_message_loop` applied to a
decoded message: `none` models an uncaught exception in the loop body
(`message.get` on a non-dict), which the loop's `except` turns into
loop exit. -/
def extDeliver (t : PendingTable) (m : Json) : Option PendingTable :=
  match m with
  | .obj fs =>
    some (match deliveryKey fs with
      | some k => if (tableLookup t k).isSome then tableAppendAt t k m else t
      | none => t)
  | _ => none

/-- `extension_message_loop` (lines 491-529) from the point the flag is
set: reads frames until `read_message` returns `None` (flag set to false,
loop exits) or the body raises (same).  The returned `Bool` is the final
`extension_connected`; fuel bounds the number of iterations modelled and
is irrelevant for terminating inputs.  When fuel runs out the loop is
still running (flag still true). -/
def extensionLoop (bo : Byteorder) : Nat → List Nat → PendingTable → Bool × PendingTable
  | 0, _, t => (true, t)
  | fuel + 1, input, t =>
    match read_message_rem bo input with
    | (none, _) => (false, t)
    | (some m, rest) =>
      match extDeliver t m with
      | some t' => extensionLoop bo fuel rest t'
      | none => (false, t)

/-! ## The response wait (`handle_mcp_client`, lines 396-408)

`while time.time() - start_time < 60: if response_queue: take; sleep(0.1)`.
Discrete-time model: one tick per loop iteration (the `0.1 s` sleep), so
the deadline check fails for the first time at tick 600 — 60 seconds.
`queueAt k` is the content the concurrently-appended `response_queue` has
when the handler polls it at tick `k`. -/

def pollTicks : Nat := 600

def awaitPoll (queueAt : Nat → List Json) : Nat → Nat → Option Json
  | 0, _ => none
  | remaining + 1, k =>
    match queueAt k with
    | x :: _ => some x
    | [] => awaitPoll queueAt remaining (k + 1)

def errorResponse (msg : String) : Json :=
  .obj (.cons (asciiStr "status") (.str (asciiStr "error"))
    (.cons (asciiStr "error") (.str (asciiStr msg)) .nil))

/-- Line 405-408. -/
def timeoutResponse : Json := errorResponse "Timeout waiting for extension response"

/-- Line 373-377. -/
def notConnectedResponse : Json :=
  errorResponse "Extension not connected. Please open Chrome and ensure the extension is installed."

/-- Line 320-323. -/
def authRequiredResponse : Json :=
  errorResponse "Authentication required. Send 'AUTH <token>' as first line."

/-- Lines 361-367: `f"Invalid JSON: {str(e)}"`.  The exact exception text
is produced by Python's `JSONDecodeError.__str__`; it is an opaque
constant here and no theorem depends on it. -/
def invalidJsonResponse : Json := errorResponse "Invalid JSON: <JSONDecodeError text>"

/-- Lines 424-429 for the `AttributeError` raised at line 370 by
`request.get('action', 'unknown')` on a non-dict parsed request; opaque
text, no theorem depends on it. -/
def attributeErrorResponse : Json := errorResponse "<AttributeError text>"

/-- Line 426-429 for the `UnicodeDecodeError` raised by
`message_data.decode('utf-8')` (not caught by the `json.JSONDecodeError`
handler); opaque text, no theorem depends on it. -/
def unicodeErrorResponse : Json := errorResponse "<UnicodeDecodeError text>"

/-- Newline-delimited TCP write:
`client_socket.sendall((json.dumps(response) + '\n').encode('utf-8'))`. -/
def lineEncode (m : Json) : List Nat := jsonEncode m ++ [10]

/-! ## One request of `handle_mcp_client` (lines 372-420) -/

structure BridgeState where
  /-- `request_counter` (ids are `counter + 1`, allocated under the lock). -/
  requestCounter : Nat
  /-- `pending_requests`. -/
  pending : PendingTable
  /-- The messages passed to `send_message` (frames forwarded toward the
  extension), in order. -/
  sentFrames : List Json

/-- Processing of one parsed request (lines 370-420).  The `logger.info`
at line 370 calls `request.get('action', 'unknown')`, which raises
`AttributeError` for every non-dict request — *before* the
extension-connected check (line 373) and before id allocation
(line 382) — so a non-dict request reaches the per-connection handler
(lines 424-434) with the state untouched; that handler answers with the
exception text once and closes.  A dict request goes through the
connected check, id allocation, `request['request_id'] = id`,
registration, forward, the timed wait, cleanup, and the response.  The
third component is `true` when the step raised out of the per-request
code.  `queueAt` is the observed content of this request's
`response_queue` at each poll tick. -/
def handleParsedRequest (connected : Bool) (st : BridgeState) (req : Json)
    (queueAt : Nat → List Json) : BridgeState × Json × Bool :=
  match req with
  | .obj fs =>
    if !connected then (st, notConnectedResponse, false)
    else
      let rid : Int := (st.requestCounter : Int) + 1
      let st1 : BridgeState := { st with requestCounter := st.requestCounter + 1 }
      let req' := Json.obj (dictSetF fs (asciiStr "request_id") (.num rid))
      let st2 : BridgeState := { st1 with pending := tableSet st1.pending rid [] }
      let st3 : BridgeState := { st2 with sentFrames := st2.sentFrames ++ [req'] }
      let response := (awaitPoll queueAt pollTicks 0).getD timeoutResponse
      let st4 : BridgeState := { st3 with pending := tableRemove st3.pending rid }
      (st4, response, false)
  | _ => (st, attributeErrorResponse, true)

/-! ## TCP authentication (`authenticate_tcp_client`, lines 267-303)

The first line (bytes before the first newline, or everything if the peer
closes first) is UTF-8 decoded, `str.strip()`-ed, then must start with
`AUTH ` and the remainder must be a member of `VALID_TOKENS`.  Any
exception (e.g. `UnicodeDecodeError`) is caught and yields `False`. -/

/-- `str.isspace` characters (the set `str.strip()` removes). -/
def pyIsSpace (c : Nat) : Bool :=
  (9 ≤ c && c ≤ 13) || (28 ≤ c && c ≤ 32) || c = 133 || c = 160 ||
  c = 5760 || (8192 ≤ c && c ≤ 8202) || c = 8232 || c = 8233 ||
  c = 8239 || c = 8287 || c = 12288

/-- `str.strip()` with no argument. -/
def pyStrip (s : List Nat) : List Nat :=
  ((s.dropWhile pyIsSpace).reverse.dropWhile pyIsSpace).reverse

def AUTH_PREFIX : List Nat := asciiStr "AUTH "

def authenticate_tcp_client (requireAuth : Bool) (tokens : List (List Nat))
    (authLineBytes : List Nat) : Bool :=
  if !requireAuth then true
  else
    match utf8Decode authLineBytes with
    | none => false
    | some decoded =>
      let authStr := pyStrip decoded
      if AUTH_PREFIX.isPrefixOf authStr then tokens.contains (authStr.drop 5)
      else false

/-! ## Per-connection request loop (`handle_mcp_client`, lines 306-441)

The socket input is modelled as the sequence of `recv` results (chunks);
an empty chunk, or running out of chunks, is a closed connection.  The
auth line is read byte-by-byte up to the first newline; the request loop
accumulates 4096-byte chunks until the accumulated data contains a
newline, takes the bytes before it as the request, and **discards** the
bytes after it (lines 344-349 log them as "extra data" and drop them). -/

/-- Split one byte list at its first newline. -/
def splitAtNewline : List Nat → Option (List Nat × List Nat)
  | [] => none
  | c :: rest =>
    if c = 10 then some ([], rest)
    else (splitAtNewline rest).map (fun p => (c :: p.1, p.2))

/-- The `recv(1)` loop of `authenticate_tcp_client` (lines 279-284): bytes
up to the first newline or the close, and the chunks still unread (a
partially consumed chunk stays pending, as in the OS buffer). -/
def recvAuthLine : List (List Nat) → List Nat → List Nat × List (List Nat)
  | [], acc => (acc, [])
  | chunk :: cs, acc =>
    match chunk with
    | [] => (acc, [])   -- recv returned b'': peer closed
    | _ :: _ =>
      match splitAtNewline chunk with
      | some (pre, post) => (acc ++ pre, if post.isEmpty then cs else post :: cs)
      | none => recvAuthLine cs (acc ++ chunk)

/-- The inner read loop (lines 333-350): returns the request bytes (before
the first newline), the bytes after that newline in the accumulated data
(which the code drops with a warning), and the chunks not yet received;
`none` is a disconnect. -/
def readRequestLineAux : List (List Nat) → List Nat → Option (List Nat × List Nat × List (List Nat))
  | [], _ => none
  | chunk :: cs, data =>
    match chunk with
    | [] => none        -- recv returned b'': client disconnected
    | _ :: _ =>
      let data' := data ++ chunk
      match splitAtNewline data' with
      | some (pre, post) => some (pre, post, cs)
      | none => readRequestLineAux cs data'

/-- The per-request body after the line is read: decode, parse, dispatch.
Mirror of lines 358-420 plus the outer `except` (lines 424-434).  Returns
the updated state, the response line written to the client, and whether
the connection closes after it. -/
def processRequestLine (connected : Bool) (st : BridgeState) (lineBytes : List Nat)
    (queueAt : Nat → List Json) : BridgeState × List Nat × Bool :=
  match utf8Decode lineBytes with
  | none => (st, lineEncode unicodeErrorResponse, true)
  | some chars =>
    match jsonParse chars with
    | none => (st, lineEncode invalidJsonResponse, false)
    | some req =>
      let r := handleParsedRequest connected st req queueAt
      (r.1, lineEncode r.2.1, r.2.2)

/-- The `while True` request loop.  `connAt i` is the value of the global
`extension_connected` when request number `i` of this connection is
handled; `oracle i` is that request's response-queue observation.  Fuel
bounds the number of loop iterations modelled (each iteration consumes at
least one chunk, so `chunks.length` is always enough).  Returns the
response lines written, in order, and the final state. -/
def sessionLoop (connAt : Nat → Bool) (oracle : Nat → Nat → List Json) :
    Nat → Nat → List (List Nat) → BridgeState → List (List Nat) × BridgeState
  | 0, _, _, st => ([], st)
  | fuel + 1, idx, chunks, st =>
    match readRequestLineAux chunks [] with
    | none => ([], st)
    | some (lineBytes, _dropped, rest) =>
      let r := processRequestLine (connAt idx) st lineBytes (oracle idx)
      if r.2.2 then ([r.2.1], r.1)
      else
        let next := sessionLoop connAt oracle fuel (idx + 1) rest r.1
        (r.2.1 :: next.1, next.2)

/-- `handle_mcp_client` from the top: optional authentication, then the
request loop. -/
def runSession (requireAuth : Bool) (tokens : List (List Nat)) (connAt : Nat → Bool)
    (oracle : Nat → Nat → List Json) (fuel : Nat) (chunks : List (List Nat))
    (st : BridgeState) : List (List Nat) × BridgeState :=
  if requireAuth then
    let a := recvAuthLine chunks []
    if authenticate_tcp_client requireAuth tokens a.1 then
      sessionLoop connAt oracle fuel 0 a.2 st
    else ([lineEncode authRequiredResponse], st)
  else sessionLoop connAt oracle fuel 0 chunks st

/-! ## Remaining definitions used by the claims -/

/-! Parser fuel needed for a value: `parseValue`/`parseElems`/`parseFields`
each burn one unit at entry. -/
mutual
def fuelV : Json → Nat
  | .null => 1
  | .bool _ => 1
  | .num _ => 1
  | .str _ => 1
  | .arr xs => 1 + fuelL xs
  | .obj fs => 1 + fuelF fs

def fuelL : JsonList → Nat
  | .nil => 1
  | .cons x xs => 1 + fuelV x + fuelL xs

def fuelF : JsonFields → Nat
  | .nil => 1
  | .cons _ v fs => 1 + fuelV v + fuelF fs
end

/-- A continuation after which a numeric token ends: next char (if any) is
not a digit and not a float continuation. -/
def numSafe : List Nat → Bool
  | [] => true
  | c :: _ => !isDigit c && c ≠ 46 && c ≠ 101 && c ≠ 69

/-- Whether a message would be delivered into a live table slot
(line 520's `request_id and request_id in pending_requests`). -/
def hasLiveSlot (t : PendingTable) (fs : JsonFields) : Bool :=
  match deliveryKey fs with
  | some k => (tableLookup t k).isSome
  | none => false

/-- The response line Claim C2 says the client receives verbatim. -/
def claimedTimeoutLine : List Nat :=
  asciiStr "\x7b\"status\":\"error\",\"error\":\"timeout waiting for extension response\"\x7d" ++ [10]

/-- The response line Claim C3 says the client receives verbatim. -/
def claimedNotConnectedLine : List Nat :=
  asciiStr "\x7b\"status\":\"error\",\"error\":\"extension not connected\"\x7d" ++ [10]

/-- Initial bridge state (`request_counter = 0`, empty table). -/
def initialState : BridgeState := ⟨0, [], []⟩

/-- A small concrete request used by witnesses. -/
def sampleRequest : Json :=
  .obj (.cons (asciiStr "action") (.str (asciiStr "ping")) .nil)

/-- Concatenation of field lists (a proof-side helper relating
`dictFold` to plain appending when keys are fresh). -/
def appendF : JsonFields → JsonFields → JsonFields
  | .nil, gs => gs
  | .cons k v tl, gs => .cons k v (appendF tl gs)

/-- Spec-side statement of C9's ordering guarantee: the newline-split
request lines, processed strictly sequentially, one response per line, in
order.  Written from the spec's words, to be compared with `sessionLoop`
(the embedding of the code). -/
def specProcessLines (connAt : Nat → Bool) (oracle : Nat → Nat → List Json) :
    Nat → List (List Nat) → BridgeState → List (List Nat) × BridgeState
  | _, [], st => ([], st)
  | idx, l :: ls, st =>
    let r := processRequestLine (connAt idx) st l (oracle idx)
    if r.2.2 then ([r.2.1], r.1)
    else
      let next := specProcessLines connAt oracle (idx + 1) ls r.1
      (r.2.1 :: next.1, next.2)

/-! # Theorems

Helper lemmas first, then one theorem (plus witness or counterexample)
per claim. -/

theorem natDigitsAux_eq_digits (fuel n : Nat) (h : n ≤ fuel) :
    natDigitsAux fuel n = Nat.digits 10 n := by
  induction fuel generalizing n with
  | zero => interval_cases n; simp [natDigitsAux]
  | succ f ih =>
    rcases Nat.eq_zero_or_pos n with hn | hn
    · simp [natDigitsAux, hn]
    · rw [natDigitsAux, if_neg (Nat.pos_iff_ne_zero.mp hn),
        ih _ (by omega), Nat.digits_def' (by norm_num) hn]

theorem natDigits_eq_digits (n : Nat) : natDigits n = Nat.digits 10 n :=
  natDigitsAux_eq_digits n n le_rfl

theorem skipWs_cons_not_ws {c : Nat} (t : List Nat) (h : isWsChar c = false) :
    skipWs (c :: t) = c :: t := by
  simp [skipWs, List.dropWhile_cons, h]

theorem skipWs_cons_ws {c : Nat} (t : List Nat) (h : isWsChar c = true) :
    skipWs (c :: t) = skipWs t := by
  simp [skipWs, List.dropWhile_cons, h]

theorem utf8Step_ascii {c : Nat} (t : List Nat) (hc : c < 128) :
    utf8Step (c :: t) = some (c, t) := by
  simp [utf8Step, hc]

theorem utf8DecodeAux_ascii (fuel : Nat) (s : List Nat) (hf : s.length ≤ fuel)
    (h : ∀ c ∈ s, c < 128) : utf8DecodeAux fuel s = some s := by
  induction fuel generalizing s with
  | zero =>
    have hs : s = [] := by cases s with
      | nil => rfl
      | cons c t => simp at hf
    subst hs; rfl
  | succ f ih =>
    cases s with
    | nil => rfl
    | cons c t =>
      have hc : c < 128 := h c (by simp)
      have ht : utf8DecodeAux f t = some t :=
        ih t (by simpa using hf) (fun x hx => h x (by simp [hx]))
      simp [utf8DecodeAux, utf8Step_ascii t hc, ht]

theorem utf8Decode_ascii (s : List Nat) (h : ∀ c ∈ s, c < 128) :
    utf8Decode s = some s :=
  utf8DecodeAux_ascii s.length s le_rfl h

theorem splitAtNewline_append (l r : List Nat) (h : ¬ 10 ∈ l) :
    splitAtNewline (l ++ 10 :: r) = some (l, r) := by
  induction l with
  | nil => simp [splitAtNewline]
  | cons c t ih =>
    have hc : c ≠ 10 := by intro hc; exact h (by simp [hc])
    have ht : ¬ 10 ∈ t := fun hm => h (by simp [hm])
    simp [splitAtNewline, hc, ih ht]

theorem tableLookup_appendAt_ne (t : PendingTable) (i j : Int) (m : Json) (h : i ≠ j) :
    tableLookup (tableAppendAt t i m) j = tableLookup t j := by
  induction t with
  | nil => rfl
  | cons kv t ih =>
    obtain ⟨k, q⟩ := kv
    by_cases hk : k = i
    · subst hk
      simp [tableAppendAt, tableLookup, h]
    · by_cases hj : k = j
      · subst hj
        simp [tableAppendAt, tableLookup, hk]
      · simp [tableAppendAt, tableLookup, hk, hj, ih]

theorem tableLookup_remove_self (t : PendingTable) (i : Int) :
    tableLookup (tableRemove t i) i = none := by
  induction t with
  | nil => rfl
  | cons kv t ih =>
    obtain ⟨k, q⟩ := kv
    by_cases hk : k = i
    · simpa [tableRemove, hk] using ih
    · simpa [tableRemove, tableLookup, hk] using ih

theorem hexVal_hexDigitChar : ∀ d : Nat, d < 16 → hexVal (hexDigitChar d) = some d := by
  decide

theorem hex4Val_hex4 (n : Nat) (h : n < 65536) :
    hex4Val (hexDigitChar (n / 4096 % 16)) (hexDigitChar (n / 256 % 16))
      (hexDigitChar (n / 16 % 16)) (hexDigitChar (n % 16)) = some n := by
  have h1 := hexVal_hexDigitChar (n / 4096 % 16) (by omega)
  have h2 := hexVal_hexDigitChar (n / 256 % 16) (by omega)
  have h3 := hexVal_hexDigitChar (n / 16 % 16) (by omega)
  have h4 := hexVal_hexDigitChar (n % 16) (by omega)
  simp only [hex4Val, h1, h2, h3, h4, Option.some.injEq]
  omega

theorem takeDigits_append (l r : List Nat) (hl : ∀ c ∈ l, isDigit c = true)
    (hr : ∀ c, r.head? = some c → isDigit c = false) :
    takeDigits (l ++ r) = (l, r) := by
  induction l with
  | nil =>
    match r with
    | [] => rfl
    | c :: t => simp [takeDigits, hr c rfl]
  | cons c t ih =>
    simp [takeDigits, hl c (by simp), ih (fun x hx => hl x (by simp [hx]))]

theorem hexDigitChar_lt (d : Nat) (h : d < 16) : hexDigitChar d < 128 := by
  unfold hexDigitChar; split <;> omega

theorem mem_hex4_lt (n x : Nat) (hx : x ∈ hex4 n) : x < 128 := by
  simp only [hex4, List.mem_cons, List.not_mem_nil, or_false] at hx
  rcases hx with h | h | h | h <;> (subst h; exact hexDigitChar_lt _ (by omega))

theorem escapeChar_eq_named (c : Nat) (h : c = 34 ∨ c = 92 ∨ c = 8 ∨ c = 9 ∨
    c = 10 ∨ c = 12 ∨ c = 13) :
    escapeChar c = [92, if c = 34 then 34 else if c = 92 then 92 else
      if c = 8 then 98 else if c = 9 then 116 else if c = 10 then 110 else
      if c = 12 then 102 else 114] := by
  rcases h with h | h | h | h | h | h | h <;> subst h <;> rfl

theorem escapeChar_eq_low (c : Nat) (hlt : c < 32) (h8 : c ≠ 8) (h9 : c ≠ 9)
    (h10 : c ≠ 10) (h12 : c ≠ 12) (h13 : c ≠ 13) :
    escapeChar c = 92 :: 117 :: hex4 c := by
  unfold escapeChar
  rw [if_neg (by omega), if_neg (by omega), if_neg h8, if_neg h9, if_neg h10,
    if_neg h12, if_neg h13, if_pos hlt]

theorem escapeChar_eq_lit (c : Nat) (hge : 32 ≤ c) (hle : c ≤ 126)
    (h34 : c ≠ 34) (h92 : c ≠ 92) : escapeChar c = [c] := by
  unfold escapeChar
  rw [if_neg h34, if_neg h92, if_neg (by omega), if_neg (by intro h; omega),
    if_neg (by omega), if_neg (by intro h; omega), if_neg (by omega),
    if_neg (by intro h; omega), if_pos hle]

theorem escapeChar_eq_bmp (c : Nat) (hgt : 126 < c) (hle : c ≤ 65535) :
    escapeChar c = 92 :: 117 :: hex4 c := by
  unfold escapeChar
  rw [if_neg (by omega), if_neg (by intro h; omega), if_neg (by omega),
    if_neg (by intro h; omega), if_neg (by omega), if_neg (by intro h; omega),
    if_neg (by omega), if_neg (by intro h; omega), if_neg (by omega), if_pos hle]

theorem escapeChar_eq_astral (c : Nat) (hgt : 65535 < c) :
    escapeChar c = 92 :: 117 :: hex4 (55296 + (c - 65536) / 1024) ++
      92 :: 117 :: hex4 (56320 + (c - 65536) % 1024) := by
  unfold escapeChar
  rw [if_neg (by omega), if_neg (by intro h; omega), if_neg (by omega),
    if_neg (by intro h; omega), if_neg (by omega), if_neg (by intro h; omega),
    if_neg (by omega), if_neg (by intro h; omega), if_neg (by omega),
    if_neg (by intro h; omega)]

theorem escapeChar_ascii (c x : Nat) (hx : x ∈ escapeChar c) : x < 128 := by
  by_cases hn : c = 34 ∨ c = 92 ∨ c = 8 ∨ c = 9 ∨ c = 10 ∨ c = 12 ∨ c = 13
  · rw [escapeChar_eq_named c hn] at hx
    simp only [List.mem_cons, List.not_mem_nil, or_false] at hx
    rcases hx with h | h <;> subst h
    · omega
    · split_ifs <;> omega
  · push_neg at hn
    obtain ⟨h34, h92, h8, h9, h10, h12, h13⟩ := hn
    by_cases hlow : c < 32
    · rw [escapeChar_eq_low c hlow h8 h9 h10 h12 h13] at hx
      simp only [List.mem_cons] at hx
      rcases hx with h | h | h
      · omega
      · omega
      · exact mem_hex4_lt _ _ h
    · by_cases hlit : c ≤ 126
      · rw [escapeChar_eq_lit c (by omega) hlit h34 h92] at hx
        simp only [List.mem_cons, List.not_mem_nil, or_false] at hx
        omega
      · by_cases hbmp : c ≤ 65535
        · rw [escapeChar_eq_bmp c (by omega) hbmp] at hx
          simp only [List.mem_cons] at hx
          rcases hx with h | h | h
          · omega
          · omega
          · exact mem_hex4_lt _ _ h
        · rw [escapeChar_eq_astral c (by omega)] at hx
          simp only [List.mem_cons, List.mem_append] at hx
          rcases hx with (h | h | h) | (h | h | h)
          · omega
          · omega
          · exact mem_hex4_lt _ _ h
          · omega
          · omega
          · exact mem_hex4_lt _ _ h

theorem escapeChar_ne_nil (c : Nat) : escapeChar c ≠ [] := by
  unfold escapeChar
  repeat' split
  all_goals simp

theorem strStep_backslash (r : List Nat) : strStep (92 :: r) = escStep r := by
  simp [strStep]

theorem escStep_u (r : List Nat) : escStep (117 :: r) = uniEsc r := by
  simp [escStep]

theorem uniEsc_hex4 (u : Nat) (t : List Nat) (hu : u < 65536)
    (hns : u < 55296 ∨ 56319 < u) : uniEsc (hex4 u ++ t) = some (some u, t) := by
  simp only [hex4, List.cons_append, List.nil_append]
  rw [uniEsc]
  simp only [hex4ValL, hex4Val_hex4 u hu]
  rw [if_neg (by omega)]
  simp [List.drop_succ_cons]

theorem uniPair_low (u c2 : Nat) (t : List Nat) (hlo : 56320 + c2 < 65536)
    (hc2 : c2 < 1024) :
    uniPair u (92 :: 117 :: (hex4 (56320 + c2) ++ t)) =
      some (some (65536 + (u - 55296) * 1024 + c2), t) := by
  rw [uniPair]
  simp only [List.head?_cons, List.tail_cons, and_self, if_true]
  simp only [hex4, List.cons_append, List.nil_append, hex4ValL, hex4Val_hex4 _ hlo]
  rw [if_pos (by omega)]
  simp only [List.drop_succ_cons, List.drop_zero, Nat.add_sub_cancel_left]

theorem uniEsc_hex4_high (u : Nat) (t : List Nat) (hu1 : 55296 ≤ u)
    (hu2 : u ≤ 56319) : uniEsc (hex4 u ++ t) = uniPair u t := by
  simp only [hex4, List.cons_append, List.nil_append]
  rw [uniEsc]
  simp only [hex4ValL, hex4Val_hex4 u (by omega)]
  rw [if_pos ⟨hu1, hu2⟩]
  simp only [List.drop_succ_cons, List.drop_zero]

theorem uniEsc_pair (c : Nat) (t : List Nat) (h1 : 65536 ≤ c) (h2 : c < 1114112) :
    uniEsc (hex4 (55296 + (c - 65536) / 1024) ++
      (92 :: 117 :: (hex4 (56320 + (c - 65536) % 1024) ++ t))) = some (some c, t) := by
  have hmod : (c - 65536) % 1024 < 1024 :=
    Nat.mod_lt (c - 65536) (by norm_num)
  rw [uniEsc_hex4_high _ _ (by omega) (by omega),
    uniPair_low _ _ t (by omega) hmod]
  have hval : 65536 + (55296 + (c - 65536) / 1024 - 55296) * 1024 +
      (c - 65536) % 1024 = c := by
    simp only [Nat.add_sub_cancel_left]
    have := Nat.div_add_mod (c - 65536) 1024
    omega
  rw [hval]

theorem strStep_escape (c : Nat) (t : List Nat) (hlt : c < 1114112)
    (hs : c < 55296 ∨ 57343 < c) :
    strStep (escapeChar c ++ t) = some (some c, t) := by
  by_cases hn : c = 34 ∨ c = 92 ∨ c = 8 ∨ c = 9 ∨ c = 10 ∨ c = 12 ∨ c = 13
  · rcases hn with h | h | h | h | h | h | h <;> subst h <;>
      simp [escapeChar, strStep, escStep]
  · push_neg at hn
    obtain ⟨h34, h92, h8, h9, h10, h12, h13⟩ := hn
    by_cases hlow : c < 32
    · rw [escapeChar_eq_low c hlow h8 h9 h10 h12 h13, List.cons_append,
        List.cons_append, strStep_backslash, escStep_u,
        uniEsc_hex4 c t (by omega) (by omega)]
    · by_cases hlit : c ≤ 126
      · rw [escapeChar_eq_lit c (by omega) hlit h34 h92]
        simp only [List.cons_append, List.nil_append]
        rw [strStep]
        simp only [List.head?_cons, List.tail_cons]
        rw [if_neg (by omega), if_neg (by omega), if_neg (by omega)]
      · by_cases hbmp : c ≤ 65535
        · rw [escapeChar_eq_bmp c (by omega) hbmp, List.cons_append,
            List.cons_append, strStep_backslash, escStep_u,
            uniEsc_hex4 c t (by omega) (by omega)]
        · rw [escapeChar_eq_astral c (by omega)]
          rw [List.append_assoc, List.cons_append, List.cons_append,
            List.cons_append, List.cons_append, strStep_backslash, escStep_u]
          exact uniEsc_pair c t (by omega) hlt

theorem parseStringFuel_encode (s : List Nat) (fuel : Nat) (rest : List Nat)
    (hf : s.length + 1 ≤ fuel) (hv : validString s = true) :
    parseStringFuel fuel (s.flatMap escapeChar ++ 34 :: rest) = some (s, rest) := by
  induction s generalizing fuel with
  | nil =>
    obtain ⟨f, rfl⟩ : ∃ f, fuel = f + 1 := ⟨fuel - 1, by omega⟩
    rw [parseStringFuel]
    simp [strStep]
  | cons c cs ih =>
    obtain ⟨f, rfl⟩ : ∃ f, fuel = f + 1 := ⟨fuel - 1, by omega⟩
    have hc : c < 1114112 ∧ (c < 55296 ∨ 57343 < c) := by
      simp [validString] at hv
      exact hv.1
    have hcs : validString cs = true := by
      simp only [validString, List.all_cons, Bool.and_eq_true] at hv ⊢
      exact hv.2
    rw [parseStringFuel, List.flatMap_cons, List.append_assoc,
      strStep_escape c _ hc.1 hc.2]
    simp [ih f (by simp only [List.length_cons] at hf; omega) hcs]

theorem flatMap_escapeChar_length (u : List Nat) :
    u.length ≤ (u.flatMap escapeChar).length := by
  induction u with
  | nil => simp
  | cons c cs ih =>
    rw [List.flatMap_cons, List.length_append, List.length_cons]
    have hpos : 0 < (escapeChar c).length := List.length_pos.mpr (escapeChar_ne_nil c)
    omega

theorem parseStringAux_encode (s : List Nat) (rest : List Nat)
    (hv : validString s = true) :
    parseStringAux (s.flatMap escapeChar ++ 34 :: rest) = some (s, rest) := by
  rw [parseStringAux]
  apply parseStringFuel_encode s _ rest ?_ hv
  rw [List.length_append, List.length_cons]
  have := flatMap_escapeChar_length s
  omega

theorem mem_encodeNat_isDigit (n : Nat) : ∀ c ∈ encodeNat n, isDigit c = true := by
  intro c hc
  unfold encodeNat at hc
  split at hc
  · simp at hc; subst hc; rfl
  · rw [natDigits_eq_digits] at hc
    simp only [List.mem_map, List.mem_reverse] at hc
    obtain ⟨d, hd, rfl⟩ := hc
    have : d < 10 := Nat.digits_lt_base (by norm_num) hd
    simp only [isDigit, Bool.and_eq_true, decide_eq_true_eq]
    omega

theorem digitsVal_encodeNat (n : Nat) : digitsVal (encodeNat n) = n := by
  unfold encodeNat digitsVal
  split
  · next h => subst h; rfl
  · rw [natDigits_eq_digits, List.map_map]
    have hcomp : ((fun c => c - 48) ∘ (fun d => d + 48)) = id := by
      funext x; simp
    rw [hcomp, List.map_id, List.reverse_reverse, Nat.ofDigits_digits]

theorem encodeNat_head (n : Nat) (h : n ≠ 0) :
    ∃ d t, encodeNat n = d :: t ∧ 49 ≤ d ∧ d ≤ 57 := by
  have hne : Nat.digits 10 n ≠ [] := Nat.digits_ne_nil_iff_ne_zero.mpr h
  have hrne : (Nat.digits 10 n).reverse ≠ [] := by
    simpa using hne
  obtain ⟨d0, l, he⟩ := List.exists_cons_of_ne_nil hrne
  have hd0? : (Nat.digits 10 n).getLast? = some d0 := by
    rw [← List.head?_reverse, he]; rfl
  have hd0 : d0 = (Nat.digits 10 n).getLast hne := by
    have hgl := List.getLast?_eq_getLast (Nat.digits 10 n) hne
    rw [hd0?] at hgl
    exact Option.some_inj.mp hgl
  have hlast : (Nat.digits 10 n).getLast hne ≠ 0 :=
    Nat.getLast_digit_ne_zero 10 h
  have hlt : d0 < 10 := by
    have : d0 ∈ Nat.digits 10 n := by
      have : d0 ∈ (Nat.digits 10 n).reverse := by rw [he]; simp
      simpa using this
    exact Nat.digits_lt_base (by norm_num) this
  refine ⟨d0 + 48, l.map (· + 48), ?_, by omega, by omega⟩
  unfold encodeNat
  rw [if_neg h, natDigits_eq_digits, he]
  rfl

theorem floatFollow_of_numSafe (rest : List Nat) (h : numSafe rest = true) :
    floatFollow rest = false := by
  cases rest with
  | nil => rfl
  | cons c t =>
    simp only [numSafe, Bool.and_eq_true, Bool.not_eq_true', decide_eq_true_eq] at h
    simp only [floatFollow, Bool.or_eq_false_iff, decide_eq_false_iff_not]
    exact ⟨⟨h.1.1.2, h.1.2⟩, h.2⟩

theorem numSafe_head_not_digit (rest : List Nat) (h : numSafe rest = true) :
    ∀ c, rest.head? = some c → isDigit c = false := by
  intro c hc
  cases rest with
  | nil => simp at hc
  | cons c' t =>
    simp only [List.head?_cons, Option.some.injEq] at hc
    subst hc
    simp only [numSafe, Bool.and_eq_true, Bool.not_eq_true'] at h
    exact h.1.1.1

theorem parseNumTail_encodeNat (n : Nat) (rest : List Nat) (h : numSafe rest = true) :
    parseNumTail (encodeNat n ++ rest) = some (n, rest) := by
  have hff := floatFollow_of_numSafe rest h
  by_cases hn : n = 0
  · subst hn
    rw [show encodeNat 0 = [48] from rfl]
    simp only [List.cons_append, List.nil_append]
    rw [parseNumTail]
    simp only [if_pos rfl, hff]
    rfl
  · obtain ⟨d, t, he, hd1, hd2⟩ := encodeNat_head n hn
    have hdig : ∀ c ∈ d :: t, isDigit c = true := by
      rw [← he]; exact mem_encodeNat_isDigit n
    rw [he, List.cons_append, parseNumTail]
    rw [if_neg (by omega), if_pos ⟨hd1, hd2⟩]
    have htd : takeDigits (d :: (t ++ rest)) = (d :: t, rest) := by
      have := takeDigits_append (d :: t) rest hdig (numSafe_head_not_digit rest h)
      simpa using this
    simp only [htd, hff]
    have : digitsVal (d :: t) = n := by rw [← he]; exact digitsVal_encodeNat n
    simp [this]

theorem encodeNat_length_pos (n : Nat) : 0 < (encodeNat n).length := by
  unfold encodeNat
  split
  · simp
  · next h =>
    rw [natDigits_eq_digits]
    simp only [List.length_map, List.length_reverse]
    exact List.length_pos.mpr (Nat.digits_ne_nil_iff_ne_zero.mpr h)

theorem encodeInt_length_pos (n : Int) : 0 < (encodeInt n).length := by
  unfold encodeInt
  split
  · simp
  · exact encodeNat_length_pos _

theorem jsonEncode_head (m : Json) :
    ∃ c t, jsonEncode m = c :: t ∧ (c = 34 ∨ c = 45 ∨ (48 ≤ c ∧ c ≤ 57) ∨
      c = 91 ∨ c = 102 ∨ c = 110 ∨ c = 116 ∨ c = 123) := by
  cases m with
  | null => exact ⟨110, _, rfl, by omega⟩
  | bool b =>
    cases b
    · exact ⟨102, _, rfl, by omega⟩
    · exact ⟨116, _, rfl, by omega⟩
  | num n =>
    show ∃ c t, encodeInt n = c :: t ∧ _
    unfold encodeInt
    by_cases hneg : n < 0
    · rw [if_pos hneg]
      exact ⟨45, _, rfl, by omega⟩
    · rw [if_neg hneg]
      by_cases h0 : n.natAbs = 0
      · rw [h0]
        exact ⟨48, [], rfl, by omega⟩
      · obtain ⟨d, t, he, hd1, hd2⟩ := encodeNat_head _ h0
        exact ⟨d, t, he, by omega⟩
  | str s =>
    exact ⟨34, s.flatMap escapeChar ++ [34], by simp [jsonEncode, encodeString], by omega⟩
  | arr xs => exact ⟨91, _, rfl, by omega⟩
  | obj fs => exact ⟨123, _, rfl, by omega⟩

theorem jsonEncode_head_props (m : Json) :
    ∃ c t, jsonEncode m = c :: t ∧ isWsChar c = false ∧ c ≠ 93 ∧ c ≠ 125 := by
  obtain ⟨c, t, he, hd⟩ := jsonEncode_head m
  refine ⟨c, t, he, ?_, by omega, by omega⟩
  simp only [isWsChar, Bool.or_eq_false_iff, decide_eq_false_iff_not]
  omega

theorem skipWs_encode_append (m : Json) (r : List Nat) :
    skipWs (jsonEncode m ++ r) = jsonEncode m ++ r := by
  obtain ⟨c, t, he, hws, _, _⟩ := jsonEncode_head_props m
  rw [he, List.cons_append, skipWs_cons_not_ws _ hws]

theorem encElems_head_props (x : Json) (xs : JsonList) :
    ∃ c t, encElems (.cons x xs) = c :: t ∧ isWsChar c = false ∧ c ≠ 93 := by
  obtain ⟨c, t, he, hws, h93, _⟩ := jsonEncode_head_props x
  cases xs with
  | nil => exact ⟨c, t, by simp [encElems, he], hws, h93⟩
  | cons y ys =>
    exact ⟨c, t ++ 44 :: 32 :: encElems (.cons y ys), by simp [encElems, he], hws, h93⟩

theorem encFields_head (k : List Nat) (v : Json) (fs : JsonFields) :
    ∃ t, encFields (.cons k v fs) = 34 :: t := by
  cases fs with
  | nil =>
    exact ⟨k.flatMap escapeChar ++ [34] ++ 58 :: 32 :: jsonEncode v,
      by simp [encFields, encodeString]⟩
  | cons k2 v2 tl =>
    exact ⟨k.flatMap escapeChar ++ [34] ++ 58 :: 32 :: jsonEncode v ++
      44 :: 32 :: encFields (.cons k2 v2 tl), by simp [encFields, encodeString]⟩

theorem encodeString_ascii (s : List Nat) : ∀ c ∈ encodeString s, c < 128 := by
  intro c hc
  simp only [encodeString, List.mem_append, List.mem_cons, List.not_mem_nil,
    or_false] at hc
  rcases hc with (h | h) | h
  · omega
  · obtain ⟨a, _, ha⟩ := List.mem_flatMap.mp h
    exact escapeChar_ascii a c ha
  · omega

theorem encodeInt_ascii (n : Int) : ∀ c ∈ encodeInt n, c < 128 := by
  intro c hc
  unfold encodeInt at hc
  split at hc
  · rcases List.mem_cons.mp hc with h | h
    · omega
    · have := mem_encodeNat_isDigit _ c h
      simp only [isDigit, Bool.and_eq_true, decide_eq_true_eq] at this
      omega
  · have := mem_encodeNat_isDigit _ c hc
    simp only [isDigit, Bool.and_eq_true, decide_eq_true_eq] at this
    omega

mutual
theorem jsonEncode_ascii (m : Json) : ∀ c ∈ jsonEncode m, c < 128 := by
  cases m with
  | null => intro c hc; rw [jsonEncode] at hc; simp at hc; omega
  | bool b =>
    cases b <;> (intro c hc; simp [jsonEncode] at hc; omega)
  | num n => exact encodeInt_ascii n
  | str s => exact encodeString_ascii s
  | arr xs =>
    intro c hc
    simp only [jsonEncode, List.mem_cons, List.mem_append, List.not_mem_nil,
      or_false] at hc
    rcases hc with h | h | h
    · omega
    · exact encElems_ascii xs c h
    · omega
  | obj fs =>
    intro c hc
    simp only [jsonEncode, List.mem_cons, List.mem_append, List.not_mem_nil,
      or_false] at hc
    rcases hc with h | h | h
    · omega
    · exact encFields_ascii fs c h
    · omega

theorem encElems_ascii (xs : JsonList) : ∀ c ∈ encElems xs, c < 128 := by
  cases xs with
  | nil => intro c hc; rw [encElems] at hc; simp at hc
  | cons x tl =>
    cases tl with
    | nil =>
      intro c hc
      rw [encElems] at hc
      exact jsonEncode_ascii x c hc
    | cons y ys =>
      intro c hc
      rw [encElems] at hc
      simp only [List.mem_append, List.mem_cons] at hc
      rcases hc with h | h | h | h
      · exact jsonEncode_ascii x c h
      · omega
      · omega
      · exact encElems_ascii (.cons y ys) c h

theorem encFields_ascii (fs : JsonFields) : ∀ c ∈ encFields fs, c < 128 := by
  cases fs with
  | nil => intro c hc; rw [encFields] at hc; simp at hc
  | cons k v tl =>
    cases tl with
    | nil =>
      intro c hc
      rw [encFields] at hc
      simp only [List.mem_append, List.mem_cons] at hc
      rcases hc with h | h | h | h
      · exact encodeString_ascii k c h
      · omega
      · omega
      · exact jsonEncode_ascii v c h
    | cons k2 v2 ys =>
      intro c hc
      rw [encFields] at hc
      simp only [List.mem_append, List.mem_cons] at hc
      rcases hc with (h | h | h | h) | h | h | h
      · exact encodeString_ascii k c h
      · omega
      · omega
      · exact jsonEncode_ascii v c h
      · omega
      · omega
      · exact encFields_ascii (.cons k2 v2 ys) c h
end

mutual
theorem fuelV_le (m : Json) : fuelV m ≤ 2 * (jsonEncode m).length := by
  cases m with
  | null => simp [fuelV, jsonEncode]
  | bool b => cases b <;> simp [fuelV, jsonEncode]
  | num n =>
    have := encodeInt_length_pos n
    rw [fuelV, show jsonEncode (.num n) = encodeInt n from rfl]
    omega
  | str s =>
    rw [fuelV, show jsonEncode (.str s) = encodeString s from rfl]
    simp only [encodeString, List.length_append, List.length_cons]
    omega
  | arr xs =>
    have h := fuelL_le xs
    rw [fuelV, jsonEncode]
    simp only [List.length_cons, List.length_append, List.length_singleton]
    omega
  | obj fs =>
    have h := fuelF_le fs
    rw [fuelV, jsonEncode]
    simp only [List.length_cons, List.length_append, List.length_singleton]
    omega

theorem fuelL_le (xs : JsonList) : fuelL xs ≤ 2 * (encElems xs).length + 3 := by
  cases xs with
  | nil => simp [fuelL, encElems]
  | cons x tl =>
    cases tl with
    | nil =>
      have h := fuelV_le x
      rw [fuelL, fuelL, encElems]
      omega
    | cons y ys =>
      have h1 := fuelV_le x
      have h2 := fuelL_le (.cons y ys)
      rw [fuelL, encElems]
      simp only [List.length_append, List.length_cons]
      omega

theorem fuelF_le (fs : JsonFields) : fuelF fs ≤ 2 * (encFields fs).length + 3 := by
  cases fs with
  | nil => simp [fuelF, encFields]
  | cons k v tl =>
    cases tl with
    | nil =>
      have h := fuelV_le v
      rw [fuelF, fuelF, encFields]
      simp only [List.length_append, List.length_cons]
      omega
    | cons k2 v2 ys =>
      have h1 := fuelV_le v
      have h2 := fuelF_le (.cons k2 v2 ys)
      rw [fuelF, encFields]
      simp only [List.length_append, List.length_cons]
      omega
end

theorem appendF_nil (acc : JsonFields) : appendF acc .nil = acc := by
  cases acc with
  | nil => rfl
  | cons k v tl => rw [appendF, appendF_nil tl]

theorem appendF_assoc (a b c : JsonFields) :
    appendF (appendF a b) c = appendF a (appendF b c) := by
  cases a with
  | nil => rfl
  | cons k v tl => rw [appendF, appendF, appendF, appendF_assoc tl]

theorem containsKey_appendF (acc gs : JsonFields) (k : List Nat) :
    containsKey (appendF acc gs) k = (containsKey acc k || containsKey gs k) := by
  cases acc with
  | nil => rfl
  | cons k2 v2 tl =>
    rw [appendF, containsKey, containsKey, containsKey_appendF tl, Bool.or_assoc]

theorem dictSetF_eq_append (acc : JsonFields) (k : List Nat) (v : Json)
    (h : containsKey acc k = false) :
    dictSetF acc k v = appendF acc (.cons k v .nil) := by
  cases acc with
  | nil => rfl
  | cons k2 v2 tl =>
    rw [containsKey, Bool.or_eq_false_iff] at h
    rw [dictSetF, if_neg (by simpa using h.1), appendF, dictSetF_eq_append tl k v h.2]

theorem dictFold_of_fresh (fs : JsonFields) : ∀ acc, wfbF fs = true →
    (∀ k, containsKey fs k = true → containsKey acc k = false) →
    dictFold acc fs = appendF acc fs := by
  cases fs with
  | nil => intro acc _ _; rw [dictFold, appendF_nil]
  | cons k v tl =>
    intro acc hwf hdisj
    rw [wfbF] at hwf
    simp only [Bool.and_eq_true, Bool.not_eq_true'] at hwf
    have hk : containsKey acc k = false :=
      hdisj k (by rw [containsKey]; simp)
    rw [dictFold, dictSetF_eq_append acc k v hk]
    rw [dictFold_of_fresh tl (appendF acc (.cons k v .nil)) hwf.2 ?fresh]
    case fresh =>
      intro k2 hk2
      rw [containsKey_appendF, Bool.or_eq_false_iff]
      refine ⟨hdisj k2 (by rw [containsKey, hk2]; simp), ?_⟩
      rw [containsKey, containsKey, Bool.or_false]
      by_cases he : k = k2
      · subst he
        rw [hwf.1.1.2] at hk2
        exact absurd hk2 (by simp)
      · simpa using he
    rw [appendF_assoc]
    rfl

theorem dictify_wf (fs : JsonFields) (h : wfbF fs = true) : dictify fs = fs := by
  rw [dictify, dictFold_of_fresh fs .nil h (fun k _ => rfl)]
  rfl

theorem encodeNat_head_digit (n : Nat) :
    ∃ d t, encodeNat n = d :: t ∧ 48 ≤ d ∧ d ≤ 57 := by
  by_cases h0 : n = 0
  · subst h0; exact ⟨48, [], rfl, by omega, by omega⟩
  · obtain ⟨d, t, he, h1, h2⟩ := encodeNat_head n h0
    exact ⟨d, t, he, by omega, by omega⟩

mutual
theorem parseValue_encode (m : Json) (f : Nat) (rest : List Nat) (hw : wfb m = true)
    (hf : fuelV m ≤ f) (hr : numSafe rest = true) :
    parseValue f (jsonEncode m ++ rest) = some (m, rest) := by
  obtain ⟨f', rfl⟩ : ∃ f', f = f' + 1 := by
    cases m <;> exact ⟨f - 1, by rw [fuelV] at hf; omega⟩
  cases m with
  | null =>
    rw [show jsonEncode .null ++ rest = 110 :: 117 :: 108 :: 108 :: rest from rfl,
      parseValue]
    norm_num [expectLit, List.isPrefixOf]
  | bool b =>
    cases b
    · rw [show jsonEncode (.bool false) ++ rest =
        102 :: 97 :: 108 :: 115 :: 101 :: rest from rfl, parseValue]
      norm_num [expectLit, List.isPrefixOf]
    · rw [show jsonEncode (.bool true) ++ rest =
        116 :: 114 :: 117 :: 101 :: rest from rfl, parseValue]
      norm_num [expectLit, List.isPrefixOf]
  | num n =>
    rw [show jsonEncode (.num n) = encodeInt n from rfl]
    unfold encodeInt
    by_cases hneg : n < 0
    · rw [if_pos hneg, List.cons_append, parseValue]
      rw [if_neg (by omega), if_neg (by intro h; omega), if_neg (by omega),
        if_neg (by intro h; omega), if_neg (by omega), if_neg (by intro h; omega),
        if_pos rfl]
      rw [parseNumTail_encodeNat _ rest hr]
      have hcast : -(n.natAbs : Int) = n := by omega
      simp only [Option.map_some']
      rw [hcast]
    · rw [if_neg hneg]
      obtain ⟨d, t, he, hd1, hd2⟩ := encodeNat_head_digit n.natAbs
      rw [he, List.cons_append, parseValue]
      rw [if_neg (by omega), if_neg (by intro h; omega), if_neg (by omega),
        if_neg (by intro h; omega), if_neg (by omega), if_neg (by intro h; omega),
        if_neg (by omega), if_pos (by simp [isDigit]; omega)]
      rw [show d :: (t ++ rest) = (d :: t) ++ rest from rfl, ← he,
        parseNumTail_encodeNat _ rest hr]
      have hcast : (n.natAbs : Int) = n := by omega
      simp only [Option.map_some']
      rw [hcast]
  | str s =>
    have hv : validString s = true := hw
    rw [show jsonEncode (.str s) ++ rest =
      34 :: (s.flatMap escapeChar ++ 34 :: rest) from by
        simp [jsonEncode, encodeString], parseValue]
    rw [if_neg (by omega), if_neg (by omega), if_neg (by omega), if_pos rfl]
    rw [parseStringAux_encode s rest hv]
    rfl
  | arr xs =>
    cases xs with
    | nil =>
      rw [show jsonEncode (.arr .nil) ++ rest = 91 :: 93 :: rest from by
        simp [jsonEncode, encElems], parseValue]
      norm_num [skipWs_cons_not_ws _ (show isWsChar 93 = false from rfl)]
    | cons x tl =>
      have hwx : wfb x = true := by
        rw [wfb, wfbL] at hw
        exact (Bool.and_eq_true _ _ |>.mp hw).1
      have hwtl : wfbL tl = true := by
        rw [wfb, wfbL] at hw
        exact (Bool.and_eq_true _ _ |>.mp hw).2
      have hfl : fuelL (.cons x tl) ≤ f' := by
        rw [fuelV] at hf; omega
      rw [show jsonEncode (.arr (.cons x tl)) ++ rest =
        91 :: (encElems (.cons x tl) ++ 93 :: rest) from by
          simp [jsonEncode], parseValue]
      rw [if_neg (by omega), if_neg (by omega), if_neg (by omega),
        if_neg (by omega), if_pos rfl]
      obtain ⟨c0, t0, he0, hws0, h93⟩ := encElems_head_props x tl
      rw [he0, List.cons_append, skipWs_cons_not_ws _ hws0]
      rw [if_neg (by simp [h93]), ← List.cons_append, ← he0,
        parseElems_encode x tl f' rest hwx hwtl hfl]
      rfl
  | obj fs =>
    cases fs with
    | nil =>
      rw [show jsonEncode (.obj .nil) ++ rest = 123 :: 125 :: rest from by
        simp [jsonEncode, encFields], parseValue]
      norm_num [skipWs_cons_not_ws _ (show isWsChar 125 = false from rfl)]
    | cons k v tl =>
      have hwf' : wfbF (.cons k v tl) = true := hw
      have hff : fuelF (.cons k v tl) ≤ f' := by
        rw [fuelV] at hf; omega
      rw [show jsonEncode (.obj (.cons k v tl)) ++ rest =
        123 :: (encFields (.cons k v tl) ++ 125 :: rest) from by
          simp [jsonEncode], parseValue]
      rw [if_neg (by omega), if_neg (by intro h; omega), if_neg (by omega),
        if_neg (by intro h; omega), if_neg (by omega), if_pos rfl]
      obtain ⟨t0, he0⟩ := encFields_head k v tl
      rw [he0, List.cons_append, skipWs_cons_not_ws _ (by rfl)]
      rw [if_neg (by simp), ← List.cons_append, ← he0,
        parseFields_encode k v tl f' rest hwf' hff]
      simp [dictify_wf _ hwf']
termination_by f

theorem parseElems_encode (x : Json) (xs : JsonList) (f : Nat) (rest : List Nat)
    (hw : wfb x = true) (hws : wfbL xs = true) (hf : fuelL (.cons x xs) ≤ f) :
    parseElems f (encElems (.cons x xs) ++ 93 :: rest) = some (.cons x xs, rest) := by
  obtain ⟨f', rfl⟩ : ∃ f', f = f' + 1 := by
    refine ⟨f - 1, ?_⟩
    rw [fuelL] at hf
    omega
  have hfx : fuelV x ≤ f' := by rw [fuelL] at hf; omega
  cases xs with
  | nil =>
    rw [show encElems (.cons x .nil) = jsonEncode x from rfl, parseElems,
      parseValue_encode x f' (93 :: rest) hw hfx rfl]
    dsimp only
    rw [skipWs_cons_not_ws _ (by rfl)]
    norm_num
  | cons y ys =>
    have hwy : wfb y = true := by
      rw [wfbL] at hws
      exact (Bool.and_eq_true _ _ |>.mp hws).1
    have hwys : wfbL ys = true := by
      rw [wfbL] at hws
      exact (Bool.and_eq_true _ _ |>.mp hws).2
    have hfl : fuelL (.cons y ys) ≤ f' := by
      rw [fuelL] at hf; omega
    rw [show encElems (.cons x (.cons y ys)) ++ 93 :: rest =
      jsonEncode x ++ (44 :: 32 :: (encElems (.cons y ys) ++ 93 :: rest)) from by
        rw [encElems]; simp, parseElems,
      parseValue_encode x f' (44 :: 32 :: (encElems (.cons y ys) ++ 93 :: rest))
        hw hfx rfl]
    dsimp only
    rw [skipWs_cons_not_ws _ (by rfl)]
    simp only [List.head?_cons, List.tail_cons]
    rw [if_pos trivial]
    obtain ⟨c0, t0, he0, hws0, _⟩ := encElems_head_props y ys
    rw [skipWs_cons_ws _ (by rfl), he0, List.cons_append,
      skipWs_cons_not_ws _ hws0, ← List.cons_append, ← he0,
      parseElems_encode y ys f' rest hwy hwys hfl]
    rfl
termination_by f

theorem parseFields_encode (k : List Nat) (v : Json) (fs : JsonFields) (f : Nat)
    (rest : List Nat) (hw : wfbF (.cons k v fs) = true)
    (hf : fuelF (.cons k v fs) ≤ f) :
    parseFields f (encFields (.cons k v fs) ++ 125 :: rest) =
      some (.cons k v fs, rest) := by
  obtain ⟨f', rfl⟩ : ∃ f', f = f' + 1 := by
    refine ⟨f - 1, ?_⟩
    rw [fuelF] at hf
    omega
  have hfv : fuelV v ≤ f' := by rw [fuelF] at hf; omega
  have hw' := hw
  rw [wfbF] at hw'
  simp only [Bool.and_eq_true, Bool.not_eq_true'] at hw'
  have hvk : validString k = true := hw'.1.1.1
  have hwv : wfb v = true := hw'.1.2
  have hwtl : wfbF fs = true := hw'.2
  cases fs with
  | nil =>
    rw [show encFields (.cons k v .nil) ++ 125 :: rest =
      34 :: (k.flatMap escapeChar ++ 34 ::
        (58 :: 32 :: (jsonEncode v ++ 125 :: rest))) from by
        rw [encFields]; simp [encodeString], parseFields]
    simp only [List.head?_cons, List.tail_cons]
    rw [if_pos trivial]
    rw [parseStringAux_encode k _ hvk]
    dsimp only
    rw [skipWs_cons_not_ws _ (by rfl)]
    simp only [List.head?_cons, List.tail_cons]
    rw [if_pos trivial]
    rw [skipWs_cons_ws _ (by rfl), skipWs_encode_append,
      parseValue_encode v f' (125 :: rest) hwv hfv rfl]
    dsimp only
    rw [skipWs_cons_not_ws _ (by rfl)]
    norm_num
  | cons k2 v2 tl =>
    have hftl : fuelF (.cons k2 v2 tl) ≤ f' := by
      rw [fuelF] at hf
      omega
    rw [show encFields (.cons k v (.cons k2 v2 tl)) ++ 125 :: rest =
      34 :: (k.flatMap escapeChar ++ 34 ::
        (58 :: 32 :: (jsonEncode v ++
          44 :: 32 :: (encFields (.cons k2 v2 tl) ++ 125 :: rest)))) from by
        rw [encFields]; simp [encodeString], parseFields]
    simp only [List.head?_cons, List.tail_cons]
    rw [if_pos trivial]
    rw [parseStringAux_encode k _ hvk]
    dsimp only
    rw [skipWs_cons_not_ws _ (by rfl)]
    simp only [List.head?_cons, List.tail_cons]
    rw [if_pos trivial]
    rw [skipWs_cons_ws _ (by rfl), skipWs_encode_append,
      parseValue_encode v f'
        (44 :: 32 :: (encFields (.cons k2 v2 tl) ++ 125 :: rest)) hwv hfv rfl]
    dsimp only
    rw [skipWs_cons_not_ws _ (by rfl)]
    simp only [List.head?_cons, List.tail_cons]
    rw [if_pos trivial]
    obtain ⟨t0, he0⟩ := encFields_head k2 v2 tl
    rw [skipWs_cons_ws _ (by rfl), he0, List.cons_append,
      skipWs_cons_not_ws _ (by rfl)]
    simp only [List.head?_cons]
    rw [if_pos trivial, ← List.cons_append, ← he0,
      parseFields_encode k2 v2 tl f' rest hwtl hftl]
    rfl
termination_by f
end

/-- A positive `take` on a cons splits off the head. -/
theorem take_pos_cons (a : Nat) (l : List Nat) {n : Nat} (h : 1 ≤ n) :
    (a :: l).take n = a :: l.take (n - 1) := by
  obtain ⟨k, rfl⟩ : ∃ k, n = k + 1 := ⟨n - 1, by omega⟩
  simp

/-- A positive `drop` on a cons discards the head. -/
theorem drop_pos_cons (a : Nat) (l : List Nat) {n : Nat} (h : 1 ≤ n) :
    (a :: l).drop n = l.drop (n - 1) := by
  obtain ⟨k, rfl⟩ : ∃ k, n = k + 1 := ⟨n - 1, by omega⟩
  simp

/-- `json.loads ∘ json.dumps` is the identity on well-formed documents. -/
theorem jsonParse_encode (m : Json) (hw : wfb m = true) :
    jsonParse (jsonEncode m) = some m := by
  have h1 : skipWs (jsonEncode m) = jsonEncode m := by
    have h := skipWs_encode_append m []
    simpa using h
  have h2 := parseValue_encode m (2 * (jsonEncode m).length + 2) [] hw
    (le_trans (fuelV_le m) (by omega)) rfl
  rw [List.append_nil] at h2
  rw [jsonParse, h1, h2]
  rfl

/-- A split `take` recombines. -/
theorem take_drop_glue (l : List Nat) (t r : Nat) (h : t ≤ r) :
    l.take t ++ (l.drop t).take (r - t) = l.take r := by
  conv_rhs => rw [show r = t + (r - t) from by omega]
  rw [List.take_add]

/-- A split `drop` recombines. -/
theorem drop_drop_glue (l : List Nat) (t r : Nat) (h : t ≤ r) :
    (l.drop t).drop (r - t) = l.drop r := by
  rw [List.drop_drop]
  rw [show t + (r - t) = r from by omega]

/-- The chunked read collects exactly `n` bytes when the stream holds at
least `n`, leaving the remainder. -/
theorem readChunksAux_exact (fuel : Nat) :
    ∀ (n : Nat) (s : List Nat), n ≤ fuel → n ≤ s.length →
      readChunksAux fuel n s = some (s.take n, s.drop n) := by
  induction fuel with
  | zero =>
    intro n s hf _
    have hn : n = 0 := Nat.le_zero.mp hf
    subst hn
    rw [readChunksAux]
    simp
  | succ f ih =>
    intro n s hf hs
    cases n with
    | zero =>
      rw [readChunksAux]
      simp
    | succ r =>
      cases s with
      | nil => simp at hs
      | cons a s' =>
        have hr : r ≤ s'.length := by
          simp only [List.length_cons] at hs
          omega
        have ht1 : 1 ≤ min 1048576 (r + 1) := by omega
        have hts : min 1048576 (r + 1) - 1 ≤ s'.length := by omega
        rw [readChunksAux]
        simp only [take_pos_cons a s' ht1, drop_pos_cons a s' ht1]
        rw [List.length_cons, List.length_take, Nat.min_eq_left hts]
        rw [show r + 1 - (min 1048576 (r + 1) - 1 + 1) =
          r - (min 1048576 (r + 1) - 1) from by omega]
        rw [ih (r - (min 1048576 (r + 1) - 1)) (s'.drop (min 1048576 (r + 1) - 1))
          (by omega) (by rw [List.length_drop]; omega)]
        simp only [Option.map_some', Option.some.injEq, Prod.mk.injEq]
        refine ⟨?_, ?_⟩
        · rw [List.take_succ_cons, List.cons_append]
          exact congrArg (a :: ·) (take_drop_glue s' _ r (by omega))
        · rw [List.drop_succ_cons]
          exact drop_drop_glue s' _ r (by omega)

/-- Packing a 32-bit length is the 4-byte prefix that unpacks to itself,
for either native byte order. -/
theorem structPackI_of_lt (bo : Byteorder) (n : Nat) (h : n < 4294967296) :
    ∃ p, structPackI bo n = some p ∧ p.length = 4 ∧ structUnpackI bo p = n := by
  cases bo with
  | little =>
    refine ⟨[n % 256, n / 256 % 256, n / 65536 % 256, n / 16777216 % 256],
      by rw [structPackI, if_pos h], rfl, ?_⟩
    simp only [structUnpackI]
    omega
  | big =>
    refine ⟨[n / 16777216 % 256, n / 65536 % 256, n / 256 % 256, n % 256],
      by rw [structPackI, if_pos h], rfl, ?_⟩
    simp only [structUnpackI]
    omega

/-- With a writable stdout and an in-range payload, `send_message` emits
the packed length prefix followed by the JSON payload. -/
theorem send_message_eq (bo : Byteorder) (m : Json) (p : List Nat)
    (hp : structPackI bo (jsonEncode m).length = some p) :
    send_message bo true m = p ++ jsonEncode m := by
  simp [send_message, send_message_outcome, send_message_attempt, hp]

/-- `read_message` recovers `m` from a correctly framed encoding of `m`. -/
theorem read_message_frame (bo : Byteorder) (m : Json) (p : List Nat)
    (hw : wfb m = true) (hp4 : p.length = 4)
    (hup : structUnpackI bo p = (jsonEncode m).length) :
    read_message bo (p ++ jsonEncode m) = some m := by
  have htake : (p ++ jsonEncode m).take 4 = p := List.take_left' hp4
  have hdrop : (p ++ jsonEncode m).drop 4 = jsonEncode m := List.drop_left' hp4
  rw [read_message, read_message_rem]
  simp only [htake, hdrop, hp4, hup]
  rw [if_neg (by omega)]
  rw [readChunksAux_exact _ _ _ le_rfl le_rfl]
  dsimp only
  simp only [List.take_length, List.drop_length]
  rw [if_neg (by omega)]
  rw [utf8Decode_ascii _ (jsonEncode_ascii m)]
  dsimp only
  rw [jsonParse_encode m hw]

/-- A queue that is empty at every poll makes the wait run out its full
fuel and return `none`. -/
theorem awaitPoll_empty (q : Nat → List Json) (hq : ∀ k, q k = []) :
    ∀ (n k : Nat), awaitPoll q n k = none := by
  intro n
  induction n with
  | zero => intro k; rfl
  | succ r ih =>
    intro k
    rw [awaitPoll, hq k]
    exact ih (k + 1)

/-- A queue that is empty until tick `k + d` and holds `m` there makes the
wait return `m`, provided the deadline has not yet passed. -/
theorem awaitPoll_hit (q : Nat → List Json) (m : Json) (tl : List Json) :
    ∀ (d rem k : Nat), d < rem → (∀ j, j < d → q (k + j) = []) →
      q (k + d) = m :: tl → awaitPoll q rem k = some m := by
  intro d
  induction d with
  | zero =>
    intro rem k hd _ hq
    obtain ⟨r, rfl⟩ : ∃ r, rem = r + 1 := ⟨rem - 1, by omega⟩
    rw [Nat.add_zero] at hq
    rw [awaitPoll, hq]
  | succ d ih =>
    intro rem k hd hpre hq
    obtain ⟨r, rfl⟩ : ∃ r, rem = r + 1 := ⟨rem - 1, by omega⟩
    have h0 : q k = [] := by
      have h := hpre 0 (by omega)
      rwa [Nat.add_zero] at h
    rw [awaitPoll, h0]
    refine ih r (k + 1) (by omega) ?_ ?_
    · intro j hj
      have h := hpre (j + 1) (by omega)
      rwa [show k + (j + 1) = k + 1 + j from by omega] at h
    · rwa [show k + 1 + d = k + (d + 1) from by omega]

/-- The connected, dict-request branch of `handleParsedRequest`, written
out: id `counter + 1` is allocated, the id is written into the request, a
fresh slot is registered, the frame is forwarded, the poll result (or the
timeout error) is the response, and the slot is removed again. -/
theorem handleParsedRequest_obj (st : BridgeState) (fs : JsonFields)
    (q : Nat → List Json) :
    handleParsedRequest true st (.obj fs) q =
      ({ requestCounter := st.requestCounter + 1,
         pending := tableRemove
           (tableSet st.pending ((st.requestCounter : Int) + 1) [])
           ((st.requestCounter : Int) + 1),
         sentFrames := st.sentFrames ++
           [.obj (dictSetF fs (asciiStr "request_id")
             (.num ((st.requestCounter : Int) + 1)))] },
       (awaitPoll q pollTicks 0).getD timeoutResponse, false) := rfl

/-- Reading from a connection whose next chunk is one whole
newline-terminated line yields exactly that line, drops nothing, and
leaves the later chunks unread. -/
theorem readRequestLineAux_line (l : List Nat) (cs : List (List Nat))
    (hl : (10 : Nat) ∉ l) :
    readRequestLineAux ((l ++ [10]) :: cs) [] = some (l, [], cs) := by
  obtain ⟨c, t, hct⟩ : ∃ c t, l ++ [10] = c :: t := by
    cases hh : l ++ [10] with
    | nil => exact absurd hh (by simp)
    | cons c t => exact ⟨c, t, rfl⟩
  rw [hct, readRequestLineAux]
  dsimp only [List.nil_append]
  rw [← hct, splitAtNewline_append l [] hl]

/-- C1: for distinct ids `i ≠ j` concurrently registered in
`pending_requests`, delivering an extension message tagged `request_id =
i` leaves the entry (the single-slot response queue) of `j` untouched, so
the handler awaiting `j` can never receive that message: each client gets
its own matching response regardless of the extension's answer order. -/
theorem C1_correlation_uniqueness (t t' : PendingTable) (fs : JsonFields)
    (i j : Int) (hij : i ≠ j) (hkey : deliveryKey fs = some i)
    (hdel : extDeliver t (.obj fs) = some t') :
    tableLookup t' j = tableLookup t j := by
  rw [extDeliver, hkey, Option.some.injEq] at hdel
  subst hdel
  dsimp only
  by_cases hl : (tableLookup t i).isSome = true
  · rw [if_pos hl]
    exact tableLookup_appendAt_ne t i j _ hij
  · rw [if_neg hl]

theorem C1_correlation_uniqueness_witness :
    tableLookup [((1 : Int), [Json.obj (.cons (asciiStr "request_id") (.num 1) .nil)]),
        ((2 : Int), ([] : List Json))] 2 =
      tableLookup [((1 : Int), ([] : List Json)), ((2 : Int), ([] : List Json))] 2 :=
  C1_correlation_uniqueness
    [((1 : Int), ([] : List Json)), ((2 : Int), ([] : List Json))]
    [((1 : Int), [Json.obj (.cons (asciiStr "request_id") (.num 1) .nil)]),
      ((2 : Int), ([] : List Json))]
    (.cons (asciiStr "request_id") (.num 1) .nil) 1 2 (by decide) rfl rfl

/-- C2 counterexample: the response line the code writes on timeout is
`{"status": "error", "error": "Timeout waiting for extension response"}\n`
(json.dumps default separators, capital `T`), not the byte string the
claim asserts. -/
theorem C2_counterexample : lineEncode timeoutResponse ≠ claimedTimeoutLine := by
  decide

/-- C2 (corrected): a forwarded request whose response queue stays empty
runs the poll loop to the 60-second deadline and then answers with the
timeout error (actual line `lineEncode timeoutResponse`, which differs
from the claim's literal bytes); a response delivered at the last tick is
still returned (the wait does not end early); and in either case the
request's slot is gone from the pending table on return. -/
theorem C2_timeout_removes_slot (st : BridgeState) (fs : JsonFields)
    (q qd : Nat → List Json) (m : Json) (hq : ∀ k, q k = [])
    (hqd : ∀ k, k < 599 → qd k = []) (hm : qd 599 = [m]) :
    (handleParsedRequest true st (.obj fs) q).2.1 = timeoutResponse ∧
    lineEncode (handleParsedRequest true st (.obj fs) q).2.1 ≠ claimedTimeoutLine ∧
    tableLookup (handleParsedRequest true st (.obj fs) q).1.pending
      ((st.requestCounter : Int) + 1) = none ∧
    (handleParsedRequest true st (.obj fs) qd).2.1 = m ∧
    tableLookup (handleParsedRequest true st (.obj fs) qd).1.pending
      ((st.requestCounter : Int) + 1) = none := by
  have hdeliver : awaitPoll qd pollTicks 0 = some m := by
    refine awaitPoll_hit qd m [] 599 pollTicks 0 (by rw [pollTicks]; omega) ?_ ?_
    · intro j hj
      rw [Nat.zero_add]
      exact hqd j hj
    · rw [Nat.zero_add]
      exact hm
  refine ⟨?_, ?_, ?_, ?_, ?_⟩
  · rw [handleParsedRequest_obj, awaitPoll_empty q hq]
    rfl
  · rw [handleParsedRequest_obj, awaitPoll_empty q hq]
    show lineEncode timeoutResponse ≠ claimedTimeoutLine
    decide
  · rw [handleParsedRequest_obj]
    exact tableLookup_remove_self _ _
  · rw [handleParsedRequest_obj, hdeliver]
    rfl
  · rw [handleParsedRequest_obj]
    exact tableLookup_remove_self _ _

theorem C2_timeout_removes_slot_witness :
    (handleParsedRequest true initialState (.obj .nil) (fun _ => [])).2.1 =
        timeoutResponse ∧
    lineEncode (handleParsedRequest true initialState (.obj .nil)
        (fun _ => [])).2.1 ≠ claimedTimeoutLine ∧
    tableLookup (handleParsedRequest true initialState (.obj .nil)
        (fun _ => [])).1.pending ((initialState.requestCounter : Int) + 1) = none ∧
    (handleParsedRequest true initialState (.obj .nil)
        (fun k => if k = 599 then [Json.null] else [])).2.1 = Json.null ∧
    tableLookup (handleParsedRequest true initialState (.obj .nil)
        (fun k => if k = 599 then [Json.null] else [])).1.pending
      ((initialState.requestCounter : Int) + 1) = none :=
  C2_timeout_removes_slot initialState .nil (fun _ => [])
    (fun k => if k = 599 then [Json.null] else []) .null
    (fun _ => rfl)
    (fun k hk => by
      show (if k = 599 then [Json.null] else []) = []
      rw [if_neg (by omega)])
    (by
      show (if (599 : Nat) = 599 then [Json.null] else []) = [Json.null]
      rw [if_pos rfl])

/-- C3 counterexample: the not-connected response line the code writes is
`{"status": "error", "error": "Extension not connected. Please open
Chrome and ensure the extension is installed."}\n`, not the byte string
the claim asserts. -/
theorem C3_counterexample : lineEncode notConnectedResponse ≠ claimedNotConnectedLine := by
  decide

/-- C3 (corrected): a JSON-object request handled while the extension
flag is false gets the not-connected error (actual text differs from the
claim's literal bytes) and the loop continues, with the state returned
unchanged — no counter increment (no id consumed), no pending
registration, no frame forwarded.  A non-object request never reaches
the connected check at all: `request.get` (line 370) raises
`AttributeError` first, whatever the flag, and the per-connection
handler answers with the exception text and closes — the state again
unchanged, so no id is consumed there either. -/
theorem C3_not_connected (st : BridgeState) (fs : JsonFields) (req : Json)
    (q : Nat → List Json) (c : Bool) (hw : wfbF fs = true)
    (hnd : ∀ gs, req ≠ .obj gs) :
    handleParsedRequest false st (.obj fs) q = (st, notConnectedResponse, false) ∧
    processRequestLine false st (jsonEncode (.obj fs)) q =
      (st, lineEncode notConnectedResponse, false) ∧
    handleParsedRequest c st req q = (st, attributeErrorResponse, true) := by
  refine ⟨rfl, ?_, ?_⟩
  · rw [processRequestLine, utf8Decode_ascii _ (jsonEncode_ascii (.obj fs))]
    dsimp only
    rw [jsonParse_encode (.obj fs) hw]
    rfl
  · cases req with
    | obj gs => exact absurd rfl (hnd gs)
    | null => rfl
    | bool b => rfl
    | num n => rfl
    | str s => rfl
    | arr xs => rfl

theorem C3_not_connected_witness :
    handleParsedRequest false initialState
        (.obj (.cons (asciiStr "action") (.str (asciiStr "ping")) .nil))
        (fun _ => []) = (initialState, notConnectedResponse, false) ∧
    processRequestLine false initialState
        (jsonEncode (.obj (.cons (asciiStr "action") (.str (asciiStr "ping")) .nil)))
        (fun _ => []) = (initialState, lineEncode notConnectedResponse, false) ∧
    handleParsedRequest true initialState (Json.num 5) (fun _ => []) =
      (initialState, attributeErrorResponse, true) :=
  C3_not_connected initialState
    (.cons (asciiStr "action") (.str (asciiStr "ping")) .nil)
    (Json.num 5) (fun _ => []) true rfl (fun _ h => Json.noConfusion h)

/-- C4: framing round trip — for every well-formed message whose encoded
payload fits the 4-byte length prefix, writing the frame with
`send_message` and reading it back with `read_message` (on the same
platform byte order) returns the message unchanged. -/
theorem C4_frame_roundtrip (bo : Byteorder) (m : Json) (hw : wfb m = true)
    (hlen : (jsonEncode m).length < 4294967296) :
    read_message bo (send_message bo true m) = some m := by
  obtain ⟨p, hp, hp4, hup⟩ := structPackI_of_lt bo (jsonEncode m).length hlen
  rw [send_message_eq bo m p hp]
  exact read_message_frame bo m p hw hp4 hup

theorem C4_frame_roundtrip_witness :
    wfb sampleRequest = true ∧ (jsonEncode sampleRequest).length < 4294967296 ∧
      read_message .little (send_message .little true sampleRequest) =
        some sampleRequest :=
  ⟨rfl, by decide, C4_frame_roundtrip .little sampleRequest rfl (by decide)⟩

/-- C5 (code bug): the length prefix is packed with `struct.pack('=I', …)`
— standard size but *native* byte order — so on a big-endian platform the
writer emits a big-endian prefix and the reader interprets big-endian,
contradicting the claimed little-endian-on-every-platform wire format: the
4-byte encoding of length 1 differs between the two byte orders, and a
big-endian reader misreads the little-endian prefix `[1, 0, 0, 0]` as
16777216. -/
theorem C5_length_prefix_native_order :
    structPackI .big 1 = some [0, 0, 0, 1] ∧
    structPackI .little 1 = some [1, 0, 0, 0] ∧
    structUnpackI .big [1, 0, 0, 0] = 16777216 := by
  refine ⟨by decide, by decide, by decide⟩

/-- C6 (code bug): a frame whose 7-byte payload `notjson` is not valid
JSON makes `read_message` return `None` — the very value it returns for a
closed stream — so the caller cannot distinguish a protocol error from a
connection close; `extension_message_loop` consequently treats it as a
disconnect: the connected flag drops to false and the loop exits, killing
the extension reader rather than reporting a recoverable protocol
error. -/
theorem C6_bad_json_read_as_close (t : PendingTable) (fuel : Nat) :
    read_message .little ([7, 0, 0, 0] ++ asciiStr "notjson") = none ∧
    read_message .little [] = none ∧
    extensionLoop .little (fuel + 1) ([7, 0, 0, 0] ++ asciiStr "notjson") t =
      (false, t) := by
  refine ⟨rfl, rfl, rfl⟩

/-- C7: an extension message whose `request_id` has no live slot in the
pending table (unsolicited, or already timed out and removed) is dropped:
the delivery step returns normally (no exception reaches the loop) and the
table — hence every other id's entry — is left completely unchanged. -/
theorem C7_unsolicited_dropped (t : PendingTable) (fs : JsonFields)
    (h : hasLiveSlot t fs = false) :
    extDeliver t (.obj fs) = some t := by
  cases hk : deliveryKey fs with
  | none => rw [extDeliver, hk]
  | some k =>
    rw [hasLiveSlot, hk] at h
    dsimp only at h
    rw [extDeliver, hk]
    dsimp only
    rw [if_neg (by simp [h])]

theorem C7_unsolicited_dropped_witness :
    extDeliver [((5 : Int), ([] : List Json))]
        (.obj (.cons (asciiStr "request_id") (.num 7) .nil)) =
      some [((5 : Int), ([] : List Json))] :=
  C7_unsolicited_dropped [((5 : Int), ([] : List Json))]
    (.cons (asciiStr "request_id") (.num 7) .nil) rfl

/-- A successful `isPrefixOf` decomposes the longer list. -/
theorem isPrefixOf_append_drop (l : List Nat) :
    ∀ s : List Nat, l.isPrefixOf s = true → l ++ s.drop l.length = s := by
  induction l with
  | nil => intro s _; rfl
  | cons c l' ih =>
    intro s h
    cases s with
    | nil => simp [List.isPrefixOf] at h
    | cons a s' =>
      simp only [List.isPrefixOf, Bool.and_eq_true, beq_iff_eq] at h
      obtain ⟨rfl, h2⟩ := h
      simp only [List.length_cons, List.drop_succ_cons, List.cons_append,
        List.cons.injEq, true_and]
      exact ih s' h2

/-- `isPrefixOf` holds on an extension of the list itself. -/
theorem isPrefixOf_self_append (l t : List Nat) : l.isPrefixOf (l ++ t) = true := by
  induction l with
  | nil =>
    show List.isPrefixOf [] t = true
    cases t <;> rfl
  | cons c l' ih => simp [List.isPrefixOf, ih]

/-- C8 counterexample: with token set `{"abc"}` the line `" AUTH abc "`
(leading and trailing whitespace) authenticates, because the code calls
`str.strip()` before matching — yet that line is not exactly
`AUTH <token>` for the configured token. -/
theorem C8_counterexample :
    authenticate_tcp_client true [asciiStr "abc"] (asciiStr " AUTH abc ") = true ∧
    asciiStr " AUTH abc " ≠ AUTH_PREFIX ++ asciiStr "abc" := by
  refine ⟨by decide, by decide⟩

/-- C8 (corrected): with auth required, a connection authenticates iff the
first line UTF-8 decodes and, *after `str.strip()`*, is exactly
`AUTH <token>` with `<token>` an exact member of the configured set
(whitespace around the line is tolerated — weaker than the claim's exact
match); and when authentication fails the session writes the single
auth-error line and ends without processing any request line. -/
theorem C8_auth_exact_after_strip (tokens : List (List Nat)) (line : List Nat)
    (connAt : Nat → Bool) (oracle : Nat → Nat → List Json) (fuel : Nat)
    (chunks : List (List Nat)) (st : BridgeState) :
    (authenticate_tcp_client true tokens line = true ↔
      ∃ d tok, utf8Decode line = some d ∧ pyStrip d = AUTH_PREFIX ++ tok ∧
        tokens.contains tok = true) ∧
    (authenticate_tcp_client true tokens (recvAuthLine chunks []).1 = false →
      runSession true tokens connAt oracle fuel chunks st =
        ([lineEncode authRequiredResponse], st)) := by
  constructor
  · cases hd : utf8Decode line with
    | none =>
      constructor
      · intro h
        rw [authenticate_tcp_client, hd] at h
        simp at h
      · rintro ⟨d, tok, hdd, -, -⟩
        exact Option.noConfusion hdd
    | some d =>
      have he : authenticate_tcp_client true tokens line =
          (if AUTH_PREFIX.isPrefixOf (pyStrip d) then
            tokens.contains ((pyStrip d).drop 5) else false) := by
        rw [authenticate_tcp_client, hd]
        rfl
      rw [he]
      by_cases hp : AUTH_PREFIX.isPrefixOf (pyStrip d) = true
      · rw [if_pos hp]
        constructor
        · intro hc
          refine ⟨d, (pyStrip d).drop 5, rfl, ?_, hc⟩
          exact (isPrefixOf_append_drop AUTH_PREFIX (pyStrip d) hp).symm
        · rintro ⟨d', tok, hdd, hstrip, hcont⟩
          rw [Option.some.injEq] at hdd
          subst hdd
          rw [hstrip, List.drop_left' (show AUTH_PREFIX.length = 5 from rfl)]
          exact hcont
      · rw [if_neg hp]
        constructor
        · intro h
          exact absurd h (by simp)
        · rintro ⟨d', tok, hdd, hstrip, -⟩
          rw [Option.some.injEq] at hdd
          subst hdd
          refine absurd ?_ hp
          rw [hstrip]
          exact isPrefixOf_self_append AUTH_PREFIX tok
  · intro hfail
    rw [runSession]
    simp only [if_true]
    rw [if_neg (by rw [hfail]; exact Bool.false_ne_true)]

theorem C8_auth_exact_after_strip_witness :
    ∃ d tok, utf8Decode (asciiStr "AUTH abc") = some d ∧
      pyStrip d = AUTH_PREFIX ++ tok ∧ [asciiStr "abc"].contains tok = true :=
  ((C8_auth_exact_after_strip [asciiStr "abc"] (asciiStr "AUTH abc")
      (fun _ => false) (fun _ _ => []) 0 [] initialState).1).mp (by decide)

/-- C9 counterexample: a client that sends two newline-terminated JSON
objects in one TCP segment gets exactly one response — the bytes after the
first newline of the accumulated data are discarded (lines 344-349), so
the second request line is skipped, contrary to the claim that no line the
client sent is discarded. -/
theorem C9_counterexample :
    (asciiStr "{}\n{}\n").count 10 = 2 ∧
    (runSession false [] (fun _ => false) (fun _ _ => []) 2
        [asciiStr "{}\n{}\n"] initialState).1.length = 1 := by
  refine ⟨by decide, by decide⟩

/-- C9 (corrected): when each `recv` chunk carries exactly one
newline-terminated, newline-free request line, the session processes the
lines strictly sequentially, one response per line, in order, none
skipped: `sessionLoop` coincides with the spec-side sequential
processor `specProcessLines` on the line list. -/
theorem C9_one_line_per_chunk (connAt : Nat → Bool) (oracle : Nat → Nat → List Json)
    (lines : List (List Nat)) (h : ∀ l ∈ lines, (10 : Nat) ∉ l) :
    ∀ (idx : Nat) (st : BridgeState) (fuel : Nat), lines.length ≤ fuel →
      sessionLoop connAt oracle fuel idx (lines.map (· ++ [10])) st =
        specProcessLines connAt oracle idx lines st := by
  induction lines with
  | nil =>
    intro idx st fuel _
    cases fuel with
    | zero => rfl
    | succ f => rfl
  | cons l ls ih =>
    intro idx st fuel hf
    obtain ⟨f, rfl⟩ : ∃ f, fuel = f + 1 := ⟨fuel - 1, by simp at hf; omega⟩
    have hl : (10 : Nat) ∉ l := h l (by simp)
    rw [List.map_cons, sessionLoop, readRequestLineAux_line l _ hl,
      specProcessLines]
    dsimp only
    by_cases hb : (processRequestLine (connAt idx) st l (oracle idx)).2.2 = true
    · rw [if_pos hb, if_pos hb]
    · rw [if_neg hb, if_neg hb,
        ih (fun l2 hl2 => h l2 (by simp [hl2])) (idx + 1) _ f
          (by simp at hf ⊢; omega)]

theorem C9_one_line_per_chunk_witness :
    sessionLoop (fun _ => false) (fun _ _ => []) 2 0
        ([asciiStr "{}", asciiStr "{}"].map (· ++ [10])) initialState =
      specProcessLines (fun _ => false) (fun _ _ => []) 0
        [asciiStr "{}", asciiStr "{}"] initialState :=
  C9_one_line_per_chunk (fun _ => false) (fun _ _ => [])
    [asciiStr "{}", asciiStr "{}"] (by decide) 0 initialState 2 (by decide)

/-- C10: `send_message` catches every exception of its body (out-of-range
length, broken stdout pipe) and returns normally, so a TCP handler whose
forward fails gets no immediate write error: it polls its (necessarily
empty) queue for the full 60-second window and then answers its client
with the timeout error, without raising. -/
theorem C10_send_failure_waits_timeout (bo : Byteorder) (writeOk : Bool)
    (m : Json) (st : BridgeState) (fs : JsonFields) (q : Nat → List Json)
    (hq : ∀ k, q k = []) :
    (∃ w, send_message_outcome bo writeOk m = .ok w) ∧
    (handleParsedRequest true st (.obj fs) q).2.1 = timeoutResponse ∧
    (handleParsedRequest true st (.obj fs) q).2.2 = false := by
  refine ⟨?_, ?_, ?_⟩
  · cases hatt : send_message_attempt bo writeOk m with
    | ok w => exact ⟨w, by rw [send_message_outcome, hatt]⟩
    | error e => exact ⟨[], by rw [send_message_outcome, hatt]⟩
  · rw [handleParsedRequest_obj, awaitPoll_empty q hq]
    rfl
  · rw [handleParsedRequest_obj]

theorem C10_send_failure_waits_timeout_witness :
    (∃ w, send_message_outcome .little false sampleRequest = .ok w) ∧
    (handleParsedRequest true initialState
        (.obj (.cons (asciiStr "x") .null .nil)) (fun _ => [])).2.1 =
      timeoutResponse ∧
    (handleParsedRequest true initialState
        (.obj (.cons (asciiStr "x") .null .nil)) (fun _ => [])).2.2 = false :=
  C10_send_failure_waits_timeout .little false sampleRequest initialState
    (.cons (asciiStr "x") .null .nil) (fun _ => []) (fun _ => rfl)
